import Mathlib

/-!
# Cassette Objects dictionary (`src/src/dictionary.c`)

A shallow embedding of the open-addressing dictionary: slots, the linear probe
`_find_slot`, the hasher `_hash`, the growth routine `_resize` and the public
operations.  Machine integers are naturals with explicit wrap-around, the slot
array is a list, a pointer into the array is an index, and everything the C
standard leaves undefined (modulo by zero, a store through `NULL`, an access
outside the array, a conversion of a `double` that does not fit) is a
`Fault`.  The allocator is an oracle: every call that may allocate takes a
boolean telling whether the allocation succeeds.
`max_load` is a ratio.  `cobj_dictionary_create` and `cobj_dictionary_write`
take the two expressions in which it occurs over exact ratios;
`cobj_dictionary_create_double` and `cobj_dictionary_write_double` evaluate
them in double precision, as the machine does, and the growth policy and the
initial sizing are stated about these.

The pointer tracker of `src/old/src/tracker.c` and the colour parser of
`src/src/color.c` are embedded the same way, after the dictionary.
-/

/-! ## Data model -/

/-- The largest `size_t` (64-bit target). -/
def SIZE_MAX : Nat := 2 ^ 64 - 1

/-- Slot life cycle, `enum _state_t`. -/
inductive _state_t where
  | _UNUSED
  | _DELETED
  | _OCCUPIED
  deriving DecidableEq, Repr

/-- Integer value of an enumerator: `_UNUSED = 0`, `_DELETED = 1`, `_OCCUPIED = 2`. -/
def _state_t.val : _state_t → Nat
  | ._UNUSED => 0
  | ._DELETED => 1
  | ._OCCUPIED => 2

/-- One record of the backing array, `struct _slot_t`. -/
structure _slot_t where
  hash : Nat
  value : Int
  group : Nat
  state : _state_t
  deriving DecidableEq, Repr

/-- The dictionary object, `struct _dictionary_t`. -/
structure _dictionary_t where
  slots : List _slot_t
  n : Nat
  n_alloc : Nat
  max_load : ℚ
  failed : Bool
  deriving DecidableEq

/-- What the C standard leaves undefined, plus the two ways a run can stop
without a result: a failed `assert` and an exhausted loop budget. -/
inductive Fault where
  | assertion
  | div_by_zero
  | null_deref
  | out_of_bounds
  | out_of_fuel
  | out_of_range
  deriving DecidableEq, Repr

deriving instance DecidableEq for Except

/-- The all-zero slot that `calloc` and `memset(…, 0, …)` produce. -/
def zero_slot : _slot_t := ⟨0, 0, 0, ._UNUSED⟩

/-- Size in bytes of one slot: two 64-bit words, an `unsigned int` and an
`enum`. -/
def sizeof_slot_t : Nat := 24

/-- The static `_err_dict` placeholder. -/
def _err_dict : _dictionary_t :=
  { slots := [], n := 0, n_alloc := 0, max_load := 1, failed := true }

/-- Conversion `size_t → int64_t` done by the store `slot->value = value`. -/
def to_int64 (v : Nat) : Int :=
  if v % 2 ^ 64 < 2 ^ 63 then ((v % 2 ^ 64 : Nat) : Int) else ((v % 2 ^ 64 : Nat) : Int) - 2 ^ 64

/-- Conversion to a 64-bit unsigned integer (`size_t`, `uint64_t`). -/
def to_uint64 (v : Int) : Nat := (v % 2 ^ 64).toNat

/-- The post-decrement `dict->n--` on a `size_t`. -/
def size_dec (n : Nat) : Nat := (n + 2 ^ 64 - 1) % 2 ^ 64

/-- The post-increment `dict->n++` on a `size_t`. -/
def size_inc (n : Nat) : Nat := (n + 1) % 2 ^ 64

/-- Modelled from the spec: `safe_mul` of `safe.h`, whose body is not in the
sources: the product when it fits a `size_t`, failure otherwise. -/
def safe_mul (a b : Nat) : Option Nat :=
  if a * b ≤ SIZE_MAX then some (a * b) else none

/-- Modelled from the spec: `safe_add` of `safe.h`, whose body is not in the
sources: the sum when it fits a `size_t`, failure otherwise. -/
def safe_add (a b : Nat) : Option Nat :=
  if a + b ≤ SIZE_MAX then some (a + b) else none

/-! ## Hasher -/

/-- The string loop of `_hash`.  The list is the memory from `str` on, as
`char` values (signed or unsigned, as the platform has it); the walk ends at
the first `0` or at the end of the list, where the terminator sits. -/
def _hash_str : Nat → List Int → Nat
  | h, [] => h
  | h, c :: cs =>
    if c = 0 then h
    else _hash_str (((h ^^^ to_uint64 c) * 1099511628211) % 2 ^ 64) cs

/-- The group loop of `_hash`: `i` runs over `sizeof(group) = 4` indices and
each step mixes in `group & (0xFF << i)`. -/
def _hash_group (group : Nat) (h : Nat) : Nat :=
  (List.range 4).foldl
    (fun h i => ((h ^^^ (group &&& (0xFF <<< i))) * 1099511628211) % 2 ^ 64) h

/-- The function `_hash`: FNV offset basis, the group steps, then the string
steps when a string is given. -/
def _hash (str : Option (List Int)) (group : Nat) : Nat :=
  let h := _hash_group group 14695981039346656037
  match str with
  | none => h
  | some s => _hash_str h s

/-! ## Probe -/

/-- The `while` loop of `_find_slot`.  `i` is the current index and `slot` the
slot it points to; the result is the index of the slot returned, or `none`
for `NULL`. -/
def _find_slot_loop (dict : _dictionary_t) (hash : Nat) (state_cut_off : _state_t) (i0 : Nat) :
    Nat → Nat → _slot_t → Except Fault (Option Nat)
  | 0, _, _ => .error .out_of_fuel
  | fuel + 1, i, slot =>
    if state_cut_off.val < slot.state.val ∧ slot.hash ≠ hash then
      let i := if (i + 1) % 2 ^ 64 ≥ dict.n_alloc then 0 else (i + 1) % 2 ^ 64
      if i = i0 then .ok none
      else
        match dict.slots[i]? with
        | none => .error .out_of_bounds
        | some slot => _find_slot_loop dict hash state_cut_off i0 fuel i slot
    else .ok (some i)

/-- The function `_find_slot`.  The loop budget is `n_alloc`, the number of
slots a full cycle visits. -/
def _find_slot (dict : _dictionary_t) (hash : Nat) (state_cut_off : _state_t) :
    Except Fault (Option Nat) :=
  if dict.n_alloc = 0 then .error .div_by_zero
  else
    let i0 := hash % dict.n_alloc
    match dict.slots[i0]? with
    | none => .error .out_of_bounds
    | some slot => _find_slot_loop dict hash state_cut_off i0 dict.n_alloc i0 slot

/-! ## Growth -/

/-- The copy loop of `_resize`: `i` runs over the old array `tmp_2` of `n_2`
slots (`rem` iterations are left) and every occupied slot is stored through
the pointer `_find_slot` returns on the new array. -/
def _resize_move (tmp_2 : List _slot_t) : Nat → Nat → _dictionary_t → Except Fault _dictionary_t
  | 0, _, dict => .ok dict
  | rem + 1, i, dict =>
    match tmp_2[i]? with
    | none => .error .out_of_bounds
    | some old =>
      if old.state = ._OCCUPIED then
        match _find_slot dict old.hash ._UNUSED with
        | .error e => .error e
        | .ok none => .error .null_deref
        | .ok (some q) =>
          if q < dict.slots.length then
            _resize_move tmp_2 rem (i + 1) { dict with slots := dict.slots.set q old }
          else .error .out_of_bounds
      else _resize_move tmp_2 rem (i + 1) dict

/-- The function `_resize`; the boolean of the result is the return value. -/
def _resize (dict : _dictionary_t) (n a b : Nat) (calloc_ok : Bool) :
    Except Fault (Bool × _dictionary_t) :=
  match safe_mul n a with
  | none => .ok (false, { dict with failed := true })
  | some n =>
    match safe_add n b with
    | none => .ok (false, { dict with failed := true })
    | some n =>
      match safe_mul n sizeof_slot_t with
      | none => .ok (false, { dict with failed := true })
      | some _ =>
        if n ≤ dict.n_alloc then .ok (true, dict)
        else if calloc_ok = false then .ok (false, { dict with failed := true })
        else
          match _resize_move dict.slots dict.n_alloc 0
              { dict with slots := List.replicate n zero_slot, n_alloc := n } with
          | .error e => .error e
          | .ok dict => .ok (true, dict)

/-! ## Public operations -/

/-- The function `cobj_dictionary_clear`: `memset` over the `n_alloc` slots.
The byte count `n_alloc * sizeof(_slot_t)` is the size of the array object, so
it does not wrap; an array shorter than `n_alloc` would be overrun. -/
def cobj_dictionary_clear (dict : _dictionary_t) : Except Fault _dictionary_t :=
  if dict.failed then .ok dict
  else if dict.slots.length < dict.n_alloc then .error .out_of_bounds
  else
    .ok { dict with
      slots := List.replicate dict.n_alloc zero_slot ++ dict.slots.drop dict.n_alloc
      n := 0 }

/-- The `for` loop of `cobj_dictionary_clear_group`; the index is a
`uint32_t`, compared with the `size_t` capacity. -/
def _clear_group_loop (group : Nat) : Nat → Nat → _dictionary_t → Except Fault _dictionary_t
  | 0, _, _ => .error .out_of_fuel
  | fuel + 1, i, dict =>
    if i < dict.n_alloc then
      match dict.slots[i]? with
      | none => .error .out_of_bounds
      | some slot =>
        if slot.state = ._OCCUPIED ∧ slot.group = group then
          _clear_group_loop group fuel ((i + 1) % 2 ^ 32)
            { dict with
              slots := dict.slots.set i { slot with state := ._DELETED }
              n := size_dec dict.n }
        else _clear_group_loop group fuel ((i + 1) % 2 ^ 32) dict
    else .ok dict

/-- The function `cobj_dictionary_clear_group`, run with a loop budget. -/
def cobj_dictionary_clear_group (fuel : Nat) (dict : _dictionary_t) (group : Nat) :
    Except Fault _dictionary_t :=
  if dict.failed then .ok dict
  else if dict.n = 0 then .ok dict
  else _clear_group_loop group fuel 0 dict

/-- The function `cobj_dictionary_create`.  `malloc_ok` and `calloc_ok` say
whether the two allocations succeed; the capacity test and the quotient
`n_alloc / max_load` are taken over exact ratios and the quotient is rounded
down (`cobj_dictionary_create_double` below rounds as the machine does). -/
def cobj_dictionary_create (n_alloc : Nat) (max_load : ℚ) (malloc_ok calloc_ok : Bool) :
    Except Fault _dictionary_t :=
  if ¬ (0 < max_load ∧ max_load ≤ 1) then .error .assertion
  else if (n_alloc : ℚ) > (SIZE_MAX : ℚ) * max_load then .ok _err_dict
  else if malloc_ok = false then .ok _err_dict
  else
    match _resize { slots := [], n := 0, n_alloc := 0, max_load := max_load, failed := false }
        ((n_alloc : ℚ) / max_load).floor.toNat 1 0 calloc_ok with
    | .error e => .error e
    | .ok (_, dict) => .ok dict

/-- The function `cobj_dictionary_erase`. -/
def cobj_dictionary_erase (dict : _dictionary_t) (key : Option (List Int)) (group : Nat) :
    Except Fault _dictionary_t :=
  if dict.failed then .ok dict
  else if dict.n = 0 then .ok dict
  else
    match _find_slot dict (_hash key group) ._UNUSED with
    | .error e => .error e
    | .ok none => .ok dict
    | .ok (some p) =>
      match dict.slots[p]? with
      | none => .error .out_of_bounds
      | some slot =>
        if slot.state = ._OCCUPIED then
          .ok { dict with
            slots := dict.slots.set p { slot with state := ._DELETED }
            n := size_dec dict.n }
        else .ok dict

/-- The function `cobj_dictionary_find` called with a non-null `value`:
`none` is the return value `false` (nothing is written), `some v` is `true`
with `*value = v`. -/
def cobj_dictionary_find (dict : _dictionary_t) (key : Option (List Int)) (group : Nat) :
    Except Fault (Option Nat) :=
  if dict.failed then .ok none
  else if dict.n = 0 then .ok none
  else
    match _find_slot dict (_hash key group) ._UNUSED with
    | .error e => .error e
    | .ok none => .ok none
    | .ok (some p) =>
      match dict.slots[p]? with
      | none => .error .out_of_bounds
      | some slot =>
        if slot.state ≠ ._OCCUPIED then .ok none
        else .ok (some (to_uint64 slot.value))

/-- The function `cobj_dictionary_get_alloc_size`. -/
def cobj_dictionary_get_alloc_size (dict : _dictionary_t) : Nat :=
  if dict.failed then 0 else dict.n_alloc

/-- The function `cobj_dictionary_get_load`. -/
def cobj_dictionary_get_load (dict : _dictionary_t) : Nat :=
  if dict.failed then 0 else dict.n

/-- The function `cobj_dictionary_has_failed`. -/
def cobj_dictionary_has_failed (dict : _dictionary_t) : Bool := dict.failed

/-- The `switch` of `cobj_dictionary_write` on the state of the slot the
insertion probe returned (index `p`, contents `slot`). -/
def _write_slot (dict : _dictionary_t) (hash group value p : Nat) (slot : _slot_t) :
    Except Fault _dictionary_t :=
  match slot.state with
  | ._DELETED =>
    match _find_slot dict hash ._UNUSED with
    | .error e => .error e
    | .ok none =>
      .ok { dict with
        slots := dict.slots.set p ⟨hash, to_int64 value, group, ._OCCUPIED⟩
        n := size_inc dict.n }
    | .ok (some p2) =>
      match dict.slots[p2]? with
      | none => .error .out_of_bounds
      | some slot_2 =>
        if slot_2.state = ._OCCUPIED then
          .ok { dict with
            slots := (dict.slots.set p2 { slot_2 with state := ._DELETED }).set p
              ⟨hash, to_int64 value, group, ._OCCUPIED⟩
            n := size_inc (size_dec dict.n) }
        else
          .ok { dict with
            slots := dict.slots.set p ⟨hash, to_int64 value, group, ._OCCUPIED⟩
            n := size_inc dict.n }
  | ._UNUSED =>
    .ok { dict with
      slots := dict.slots.set p ⟨hash, to_int64 value, group, ._OCCUPIED⟩
      n := size_inc dict.n }
  | ._OCCUPIED =>
    .ok { dict with slots := dict.slots.set p { slot with value := to_int64 value } }

/-- The part of `cobj_dictionary_write` after the growth step: the insertion
probe with cutoff `_DELETED` and the `switch`. -/
def _write_probe (dict : _dictionary_t) (hash group value : Nat) : Except Fault _dictionary_t :=
  match _find_slot dict hash ._DELETED with
  | .error e => .error e
  | .ok none => .ok { dict with failed := true }
  | .ok (some p) =>
    match dict.slots[p]? with
    | none => .error .out_of_bounds
    | some slot => _write_slot dict hash group value p slot

/-- The function `cobj_dictionary_write`; `calloc_ok` says whether the
allocation of a growth, if one is attempted, succeeds.  The growth test is
taken over exact ratios (`cobj_dictionary_write_double` below rounds as the
machine does). -/
def cobj_dictionary_write (dict : _dictionary_t) (key : Option (List Int)) (group value : Nat)
    (calloc_ok : Bool) : Except Fault _dictionary_t :=
  if dict.failed then .ok dict
  else if (dict.n : ℚ) ≥ (dict.n_alloc : ℚ) * dict.max_load then
    match _resize dict dict.n_alloc 2 1 calloc_ok with
    | .error e => .error e
    | .ok (false, dict) => .ok dict
    | .ok (true, dict) => _write_probe dict (_hash key group) group value
  else _write_probe dict (_hash key group) group value

/-! ## Specification vocabulary: probe order, invariant, lookup -/

/-- Index `j` is visited strictly before index `q` by a circular walk over
`N` slots that starts at `i0`. -/
def between (N i0 q j : Nat) : Prop :=
  (i0 ≤ q ∧ i0 ≤ j ∧ j < q) ∨ (q < i0 ∧ ((i0 ≤ j ∧ j < N) ∨ j < q))

/-- The probe halts on slot `s`: the negation of the loop condition of
`_find_slot`. -/
def stops (cut : _state_t) (hash : Nat) (s : _slot_t) : Prop :=
  ¬ (cut.val < s.state.val ∧ s.hash ≠ hash)

/-- Slot `q` is the first one, in probe order from `i0`, on which the probe
halts. -/
def first_stop (slots : List _slot_t) (cut : _state_t) (hash i0 q : Nat) : Prop :=
  (∃ s, slots[q]? = some s ∧ stops cut hash s) ∧
    ∀ (j : Nat) (t : _slot_t), between slots.length i0 q j → slots[j]? = some t → ¬ stops cut hash t

/-- Number of occupied slots of a slot array. -/
def live (slots : List _slot_t) : Nat :=
  slots.countP (fun s => decide (s.state = ._OCCUPIED))

/-- Dictionaries obtained from `cobj_dictionary_create` by calls of `write`,
`erase`, `clear` and `clear_group` that return. -/
inductive Reachable : _dictionary_t → Prop where
  | create (n_alloc : Nat) (max_load : ℚ) (malloc_ok calloc_ok : Bool) (d : _dictionary_t) :
      cobj_dictionary_create n_alloc max_load malloc_ok calloc_ok = .ok d → Reachable d
  | write (d : _dictionary_t) (key : Option (List Int)) (group value : Nat) (calloc_ok : Bool)
      (d2 : _dictionary_t) :
      Reachable d → cobj_dictionary_write d key group value calloc_ok = .ok d2 → Reachable d2
  | erase (d : _dictionary_t) (key : Option (List Int)) (group : Nat) (d2 : _dictionary_t) :
      Reachable d → cobj_dictionary_erase d key group = .ok d2 → Reachable d2
  | clear (d d2 : _dictionary_t) :
      Reachable d → cobj_dictionary_clear d = .ok d2 → Reachable d2
  | clear_group (fuel : Nat) (d : _dictionary_t) (group : Nat) (d2 : _dictionary_t) :
      Reachable d → cobj_dictionary_clear_group fuel d group = .ok d2 → Reachable d2

/-! ## Call sequences and example dictionaries -/

/-- One mutating call of the public interface, with its arguments (and, for
`write`, the answer of the allocator; for `clear_group`, the loop budget). -/
inductive Op where
  | write (key : Option (List Int)) (group value : Nat) (calloc_ok : Bool)
  | erase (key : Option (List Int)) (group : Nat)
  | clear
  | clear_group (fuel : Nat) (group : Nat)

/-- Run one mutating call. -/
def apply_op (d : _dictionary_t) : Op → Except Fault _dictionary_t
  | .write key group value calloc_ok => cobj_dictionary_write d key group value calloc_ok
  | .erase key group => cobj_dictionary_erase d key group
  | .clear => cobj_dictionary_clear d
  | .clear_group fuel group => cobj_dictionary_clear_group fuel d group

/-- Run a sequence of mutating calls, first to last. -/
def run_ops : _dictionary_t → List Op → Except Fault _dictionary_t
  | d, [] => .ok d
  | d, op :: ops =>
    match apply_op d op with
    | .error e => .error e
    | .ok d2 => run_ops d2 ops

/-- One `write` call of a batch: key, group, value and the allocator's
answer. -/
structure WriteCall where
  key : Option (List Int)
  group : Nat
  value : Nat
  calloc_ok : Bool

/-- The C string `"key_A"` of `examples/dictionary.c`. -/
def key_A : Option (List Int) := some [107, 101, 121, 95, 65]

/-- The C string `"k"`. -/
def key_k : Option (List Int) := some [107]

/-- The dictionary `cobj_dictionary_create(0, 0.6)` returns. -/
def dict_0 : _dictionary_t :=
  { slots := [], n := 0, n_alloc := 0, max_load := 3 / 5, failed := false }

/-- The dictionary `dict_0` after `write("key_A", 0, 10)`. -/
def dict_A : _dictionary_t :=
  { slots := [⟨779313860124462312, 10, 0, ._OCCUPIED⟩]
    n := 1, n_alloc := 1, max_load := 3 / 5, failed := false }

/-- The dictionary `dict_A` after `write("key_B", 0, 34)`: both hashes start
their probe at index 0, so `"key_B"` sits behind `"key_A"`. -/
def dict_AB : _dictionary_t :=
  { slots := [⟨779313860124462312, 10, 0, ._OCCUPIED⟩,
      ⟨779317158659346945, 34, 0, ._OCCUPIED⟩, ⟨0, 0, 0, ._UNUSED⟩]
    n := 2, n_alloc := 3, max_load := 3 / 5, failed := false }

/-- The dictionary `dict_0` after `write("k", 0, 1)`. -/
def dict_k0 : _dictionary_t :=
  { slots := [⟨16482040872807650682, 1, 0, ._OCCUPIED⟩]
    n := 1, n_alloc := 1, max_load := 3 / 5, failed := false }

/-- The dictionary `dict_k0` after `write("k", 2048, 2)`: one entry, stored
under group 0, with the second value. -/
def dict_k0_k2048 : _dictionary_t :=
  { slots := [⟨16482040872807650682, 2, 0, ._OCCUPIED⟩, ⟨0, 0, 0, ._UNUSED⟩,
      ⟨0, 0, 0, ._UNUSED⟩]
    n := 1, n_alloc := 3, max_load := 3 / 5, failed := false }

/-- The dictionary `cobj_dictionary_create(4294967296, 1.0)` returns when the
allocations succeed: 2^32 unused slots. -/
def dict_big_0 : _dictionary_t :=
  { slots := List.replicate (2 ^ 32) zero_slot
    n := 0, n_alloc := 2 ^ 32, max_load := 1, failed := false }

/-- The dictionary `dict_big_0` after `write("k", 0, 1)`. -/
def dict_big : _dictionary_t :=
  { slots := (List.replicate (2 ^ 32) zero_slot).set (16482040872807650682 % 2 ^ 32)
      ⟨16482040872807650682, 1, 0, ._OCCUPIED⟩
    n := 1, n_alloc := 2 ^ 32, max_load := 1, failed := false }

/-! ## Introspection, handles and the lookup path -/

/-- The function `cobj_dictionary_get_load_factor`, with the quotient taken as
an exact ratio; a zero divisor is a `Fault`. -/
def cobj_dictionary_get_load_factor (dict : _dictionary_t) : Except Fault ℚ :=
  if dict.failed then .ok 0
  else if dict.n_alloc = 0 then .error .div_by_zero
  else .ok ((dict.n : ℚ) / (dict.n_alloc : ℚ))

/-- A value of type `cobj_dictionary_t *`: the null pointer, the address of the
static `_err_dict`, or the address of a heap object, given with its contents. -/
inductive dict_ptr where
  | null
  | placeholder
  | heap (d : _dictionary_t)
  deriving DecidableEq

/-- The object a handle points to. -/
def dict_ptr.deref : dict_ptr → Option _dictionary_t
  | .null => none
  | .placeholder => some _err_dict
  | .heap d => some d

/-- The function `cobj_dictionary_get_placeholder`. -/
def cobj_dictionary_get_placeholder : dict_ptr := .placeholder

/-- The function `cobj_dictionary_destroy`, given the handle `*dict` (the
pointer `dict` itself is not null); the result is the handle it leaves in
`*dict`. -/
def cobj_dictionary_destroy : dict_ptr → Except Fault dict_ptr
  | .null => .error .assertion
  | .placeholder => .ok .placeholder
  | .heap _ => .ok .placeholder

/-- Ceiling of a ratio. -/
def rat_ceil (q : ℚ) : Int := -((-q).floor)

/-- The three overflow checks of `_resize` pass. -/
def resize_fits (n a b : Nat) : Prop :=
  n * a ≤ SIZE_MAX ∧ n * a + b ≤ SIZE_MAX ∧ (n * a + b) * sizeof_slot_t ≤ SIZE_MAX

/-- One FNV-1a step: XOR the value into the accumulator, then multiply by the
FNV prime modulo 2^64. -/
def fnv_step (h x : Nat) : Nat := ((h ^^^ x) * 1099511628211) % 2 ^ 64

/-- Byte `i` of an `unsigned int`, a value in 0..255. -/
def group_byte (group i : Nat) : Nat := (group >>> (8 * i)) &&& 0xFF

/-- The group steps as the specification words them: one step per byte of the
group tag, the value XORed being that single byte. -/
def hash_group_bytewise (group : Nat) (h : Nat) : Nat :=
  (List.range 4).foldl (fun h i => fnv_step h (group_byte group i)) h

/-- Modelled from the spec: the status values of `du-status.h`, a header that
is not among the sources; `du-tracker.h` names the three of them. -/
inductive du_status_t where
  | DU_STATUS_SUCCESS
  | DU_STATUS_FAILURE
  | DU_STATUS_NOT_INIT
  deriving DecidableEq, Repr

/-- Modelled from the spec: the macro `du_status_test` of `du-status.h`; the
result says whether the statement given to the macro runs, which it does
unless the status is `DU_STATUS_SUCCESS`. -/
def du_status_test (status : du_status_t) : Bool :=
  decide (status ≠ .DU_STATUS_SUCCESS)

/-- Modelled from the spec: the macro `du_status_assert` of `du-status.h`: when
the tested value is null the status becomes `DU_STATUS_FAILURE` and the
statement given to the macro runs (second component). -/
def du_status_assert (status : du_status_t) (value_ok : Bool) : du_status_t × Bool :=
  if value_ok = true then (status, false) else (.DU_STATUS_FAILURE, true)

/-- The type `du_tracker_t`.  `ptr` is the block the field points to, one
entry per `void*` cell (the empty list for `NULL` and for a block of no
cell); a pointer value is a number. -/
structure du_tracker_t where
  ptr : List Nat
  n : Nat
  n_alloc : Nat
  status : du_status_t
  deriving DecidableEq, Repr

/-- Size in bytes of a `void*`. -/
def sizeof_ptr : Nat := 8

/-- Number of cells of a block of `n_alloc * sizeof(void*)` bytes, the product
taken in `size_t`. -/
def alloc_cells (n_alloc : Nat) : Nat := (n_alloc * sizeof_ptr % 2 ^ 64) / sizeof_ptr

/-- The block `realloc` returns when it succeeds: `k` cells, the old contents
kept as far as they fit.  What a fresh cell holds is indeterminate; here it is
a null pointer. -/
def realloc_cells (old : List Nat) (k : Nat) : List Nat :=
  (old ++ List.replicate (k - old.length) 0).take k

/-- The first scan of `du_tracker_find`, `for (i = i0; i < SIZE_MAX; i--)`,
from index `i` on; the decrement of 0 wraps to `SIZE_MAX` and ends the loop.
The result is the index where the scan jumps to `found`, if it does. -/
def _scan_down (tracker : du_tracker_t) (ptr : Nat) : Nat → Except Fault (Option Nat)
  | 0 =>
    if 0 < SIZE_MAX then
      match tracker.ptr[0]? with
      | none => .error .out_of_bounds
      | some x => if x = ptr then .ok (some 0) else .ok none
    else .ok none
  | i + 1 =>
    if i + 1 < SIZE_MAX then
      match tracker.ptr[i + 1]? with
      | none => .error .out_of_bounds
      | some x => if x = ptr then .ok (some (i + 1)) else _scan_down tracker ptr i
    else .ok none

/-- The second scan of `du_tracker_find`, `for (...; i < tracker->n; i++)`,
from index `i` on, with a loop budget. -/
def _scan_up (tracker : du_tracker_t) (ptr : Nat) : Nat → Nat → Except Fault (Option Nat)
  | 0, _ => .error .out_of_fuel
  | fuel + 1, i =>
    if i < tracker.n then
      match tracker.ptr[i]? with
      | none => .error .out_of_bounds
      | some x =>
        if x = ptr then .ok (some i) else _scan_up tracker ptr fuel ((i + 1) % 2 ^ 64)
    else .ok none

/-- The function `du_tracker_find`.  `index` is `none` for a null pointer and
`some v` for a pointer to a `size_t` that holds `v`; the result is the return
value and what `*index` holds afterwards. -/
def du_tracker_find (tracker : du_tracker_t) (ptr : Nat) (index : Option Nat) :
    Except Fault (Bool × Option Nat) :=
  if du_status_test tracker.status = true then .ok (false, index)
  else
    let i0 :=
      match index with
      | some v => if v < tracker.n then v else size_dec tracker.n
      | none => size_dec tracker.n
    match _scan_down tracker ptr i0 with
    | .error e => .error e
    | .ok (some i) => .ok (true, index.map (fun _ => i))
    | .ok none =>
      match _scan_up tracker ptr (tracker.n + 1) ((i0 + 1) % 2 ^ 64) with
      | .error e => .error e
      | .ok (some i) => .ok (true, index.map (fun _ => i))
      | .ok none => .ok (false, index)

/-- The function `du_tracker_init`; `malloc_ok` says whether `malloc`, if it
is called, returns a block. -/
def du_tracker_init (n_alloc : Nat) (malloc_ok : Bool) : du_tracker_t :=
  { n := 0
    n_alloc := n_alloc
    ptr := if n_alloc > 0 ∧ malloc_ok = true then List.replicate (alloc_cells n_alloc) 0 else []
    status := if n_alloc = 0 ∨ (n_alloc > 0 ∧ malloc_ok = true) then .DU_STATUS_SUCCESS
      else .DU_STATUS_FAILURE }

/-- The copy loop of `du_tracker_pull_index`, with a loop budget. -/
def _pull_loop : Nat → Nat → du_tracker_t → Except Fault du_tracker_t
  | 0, _, _ => .error .out_of_fuel
  | fuel + 1, index, tracker =>
    if index < tracker.n then
      match tracker.ptr[(index + 1) % 2 ^ 64]? with
      | none => .error .out_of_bounds
      | some x =>
        if index < tracker.ptr.length then
          _pull_loop fuel ((index + 1) % 2 ^ 64) { tracker with ptr := tracker.ptr.set index x }
        else .error .out_of_bounds
    else .ok tracker

/-- The function `du_tracker_pull_index`. -/
def du_tracker_pull_index (tracker : du_tracker_t) (index : Nat) : Except Fault du_tracker_t :=
  if du_status_test tracker.status = true then .ok tracker
  else if index < tracker.n then
    _pull_loop (size_dec tracker.n + 1) index { tracker with n := size_dec tracker.n }
  else _pull_loop (tracker.n + 1) index tracker

/-- The function `du_tracker_pull_pointer`. -/
def du_tracker_pull_pointer (tracker : du_tracker_t) (ptr : Nat) : Except Fault du_tracker_t :=
  if du_status_test tracker.status = true then .ok tracker
  else
    match du_tracker_find tracker ptr (some 0) with
    | .error e => .error e
    | .ok (true, i) => du_tracker_pull_index tracker (i.getD 0)
    | .ok (false, _) => .ok tracker

/-- The function `_extend`; `realloc_ok` says whether `realloc` returns a
block. -/
def _extend (tracker : du_tracker_t) (realloc_ok : Bool) : Bool × du_tracker_t :=
  let n_alloc := if tracker.n_alloc > 0 then (tracker.n_alloc * 2) % 2 ^ 64 else 1
  match du_status_assert tracker.status realloc_ok with
  | (status, true) => (false, { tracker with n_alloc := n_alloc, status := status })
  | (status, false) =>
    (true, { tracker with
      n_alloc := n_alloc, status := status
      ptr := realloc_cells tracker.ptr (alloc_cells n_alloc) })

/-- The end of `du_tracker_push`: the store of the position through `index`,
the store `tracker->ptr[tracker->n] = ptr` and the increment of `n`. -/
def _push_store (tracker : du_tracker_t) (ptr : Nat) (index : Option Nat) :
    Except Fault (du_tracker_t × Option Nat) :=
  if tracker.n < tracker.ptr.length then
    .ok ({ tracker with ptr := tracker.ptr.set tracker.n ptr, n := size_inc tracker.n },
      index.map (fun _ => tracker.n))
  else .error .out_of_bounds

/-- The function `du_tracker_push`; the result is the tracker and what
`*index` holds afterwards. -/
def du_tracker_push (tracker : du_tracker_t) (ptr : Nat) (index : Option Nat)
    (realloc_ok : Bool) : Except Fault (du_tracker_t × Option Nat) :=
  if du_status_test tracker.status = true then .ok (tracker, index)
  else
    match du_tracker_find tracker ptr index with
    | .error e => .error e
    | .ok (true, index) => .ok (tracker, index)
    | .ok (false, index) =>
      if tracker.n ≥ tracker.n_alloc then
        match _extend tracker realloc_ok with
        | (false, tracker) => .ok (tracker, index)
        | (true, tracker) => _push_store tracker ptr index
      else _push_store tracker ptr index

/-- The entries of a tracker: the first `n` cells of its array. -/
def entries (t : du_tracker_t) : List Nat := t.ptr.take t.n

/-- A tracker whose array has room for its `n` entries, the array being a
block of at most `SIZE_MAX` bytes. -/
def tracker_wf (t : du_tracker_t) : Prop :=
  t.n ≤ t.ptr.length ∧ t.ptr.length * sizeof_ptr ≤ SIZE_MAX

/-- Trackers obtained from `du_tracker_init` by calls of `push`, `pull_index`
and `pull_pointer` that return. -/
inductive TrackerReachable : du_tracker_t → Prop where
  | init (n_alloc : Nat) (malloc_ok : Bool) :
      n_alloc ≤ SIZE_MAX → TrackerReachable (du_tracker_init n_alloc malloc_ok)
  | push (t : du_tracker_t) (ptr : Nat) (index : Option Nat) (realloc_ok : Bool)
      (t2 : du_tracker_t) (index2 : Option Nat) :
      TrackerReachable t → du_tracker_push t ptr index realloc_ok = .ok (t2, index2) →
      TrackerReachable t2
  | pull_index (t : du_tracker_t) (index : Nat) (t2 : du_tracker_t) :
      TrackerReachable t → du_tracker_pull_index t index = .ok t2 → TrackerReachable t2
  | pull_pointer (t : du_tracker_t) (ptr : Nat) (t2 : du_tracker_t) :
      TrackerReachable t → du_tracker_pull_pointer t ptr = .ok t2 → TrackerReachable t2

/-- A tracker made by `du_tracker_init(2)` and pushes of the pointers 100,
200 and 300. -/
def tracker_3 : du_tracker_t :=
  { ptr := [100, 200, 300, 0], n := 3, n_alloc := 4, status := .DU_STATUS_SUCCESS }

/-- The tracker `tracker_3` after `du_tracker_pull_index(tracker, 0)`. -/
def tracker_3_pulled : du_tracker_t :=
  { ptr := [200, 300, 300, 0], n := 2, n_alloc := 4, status := .DU_STATUS_SUCCESS }

/-- The tracker after `du_tracker_init(0)`, a push of the pointer 100 and a
push of the pointer 200 during which `realloc` fails. -/
def tracker_failed : du_tracker_t :=
  { ptr := [100], n := 1, n_alloc := 2, status := .DU_STATUS_FAILURE }

/-! ## Colours (`src/color.c`) -/

/-- Modelled from the spec: the type `cobj_color_t` of `cobj.h`, a header that
is not among the sources: four components, which `color.c` keeps in the range
0 to 1.  The `double` components are taken as exact ratios. -/
structure cobj_color_t where
  r : ℚ
  g : ℚ
  b : ℚ
  a : ℚ
  deriving DecidableEq

/-- Modelled from the spec: the constant `COBJ_COLOR_TRANSPARENT` of `cobj.h`. -/
def COBJ_COLOR_TRANSPARENT : cobj_color_t := ⟨0, 0, 0, 0⟩

/-- The function `cobj_color_convert_rgba`; the arguments are `uint8_t`
values. -/
def cobj_color_convert_rgba (r g b a : Nat) : cobj_color_t :=
  { a := (a : ℚ) / 255, r := (r : ℚ) / 255, g := (g : ℚ) / 255, b := (b : ℚ) / 255 }

/-- The function `cobj_color_convert_argb_uint`. -/
def cobj_color_convert_argb_uint (argb : Nat) : cobj_color_t :=
  cobj_color_convert_rgba ((argb >>> 16) &&& 0xFF) ((argb >>> 8) &&& 0xFF)
    ((argb >>> 0) &&& 0xFF) ((argb >>> 24) &&& 0xFF)

/-- The function `_hex_to_int`; the argument is a `char` value and 255 is
`UINT8_MAX`. -/
def _hex_to_int (c : Int) : Nat :=
  if c = 48 then 0x0
  else if c = 49 then 0x1
  else if c = 50 then 0x2
  else if c = 51 then 0x3
  else if c = 52 then 0x4
  else if c = 53 then 0x5
  else if c = 54 then 0x6
  else if c = 55 then 0x7
  else if c = 56 then 0x8
  else if c = 57 then 0x9
  else if c = 97 ∨ c = 65 then 0xA
  else if c = 98 ∨ c = 66 then 0xB
  else if c = 99 ∨ c = 67 then 0xC
  else if c = 100 ∨ c = 68 then 0xD
  else if c = 101 ∨ c = 69 then 0xE
  else if c = 102 ∨ c = 70 then 0xF
  else 255

/-- The character `str[i]` of a C string given as the list of its `char`
values; the terminator sits at the end of the list (or at the first 0). -/
def char_at (str : List Int) (i : Nat) : Int := str.getD i 0

/-- The loop of `_convert_hex`: `i` is the index, `rem = 8 - i` the number of
iterations left before the test `i < 8` fails, `v` the array of digits and
`err` the value of `*err`.  The result is the index, the digits and `*err`
when the loop ends. -/
def _convert_hex_loop (str : List Int) : Nat → Nat → List Nat → Bool → Nat × List Nat × Bool
  | 0, i, v, err => (i, v, err)
  | rem + 1, i, v, err =>
    if char_at str i ≠ 0 then
      _convert_hex_loop str rem (i + 1) (v.set i (_hex_to_int (char_at str i)))
        (if _hex_to_int (char_at str i) = 255 then true else err)
    else (i, v, err)

/-- The function `_convert_hex`; `err` is the value of `*err` at the call and
the second component of the result is its value afterwards. -/
def _convert_hex (str : List Int) (err : Bool) : cobj_color_t × Bool :=
  match _convert_hex_loop str 8 0 [0x0, 0x0, 0x0, 0x0, 0x0, 0x0, 0xF, 0xF] err with
  | (i, v, err) =>
    (cobj_color_convert_rgba
        (((v.getD 0 0 <<< 4) + v.getD 1 0) % 256)
        (((v.getD 2 0 <<< 4) + v.getD 3 0) % 256)
        (((v.getD 4 0 <<< 4) + v.getD 5 0) % 256)
        (((v.getD 6 0 <<< 4) + v.getD 7 0) % 256),
      if (i ≠ 6 ∧ i ≠ 8) ∨ char_at str i ≠ 0 then true else err)

/-- The function `_convert_ulong`.  `strtoul` is the library function, given
as what it returns for the string: the value and the number of characters it
consumed (`endptr - str`). -/
def _convert_ulong (strtoul : List Int → Nat × Nat) (str : List Int) (err : Bool) :
    cobj_color_t × Bool :=
  match strtoul str with
  | (u, consumed) =>
    (cobj_color_convert_argb_uint (u % 2 ^ 32), if consumed = 0 then true else err)

/-- The function `cobj_color_convert_str`.  The second component is the value
of `fail` at the end, which is stored into `*err` when `err` is given. -/
def cobj_color_convert_str (strtoul : List Int → Nat × Nat) (str : Option (List Int)) :
    cobj_color_t × Bool :=
  match str with
  | none => (COBJ_COLOR_TRANSPARENT, true)
  | some s =>
    if char_at s 0 = 35 then _convert_hex (s.drop 1) false
    else _convert_ulong strtoul s false

/-- The characters of a C string: the list up to the terminator. -/
def c_str (s : List Int) : List Int := s.takeWhile (fun c => decide (c ≠ 0))

/-- The hexadecimal digits `0-9`, `a-f`, `A-F`. -/
def hex_digit (c : Int) : Prop :=
  (48 ≤ c ∧ c ≤ 57) ∨ (97 ≤ c ∧ c ≤ 102) ∨ (65 ≤ c ∧ c ≤ 70)

/-- The string `"#ffffff"`. -/
def str_ffffff : List Int := [35, 102, 102, 102, 102, 102, 102]

/-- The string `"#aaa"`. -/
def str_aaa : List Int := [35, 97, 97, 97]

/-- The string `"#A0A0WA"`. -/
def str_A0A0WA : List Int := [35, 65, 48, 65, 48, 87, 65]

/-- A `strtoul` that consumes nothing. -/
def strtoul_none : List Int → Nat × Nat := fun _ => (0, 0)

/-! ## The capacity tests in double precision -/

/-- The integer nearest to `N / D`, a tie going to the even one. -/
def round_half_even (N D : Nat) : Nat :=
  if 2 * (N % D) < D then N / D
  else if D < 2 * (N % D) then N / D + 1
  else if (N / D) % 2 = 0 then N / D
  else N / D + 1

/-- Numerator of `(num / den) / 2 ^ e`. -/
def scale_num (num : Nat) (e : Int) : Nat :=
  if e < 0 then num * 2 ^ (-e).toNat else num

/-- Denominator of `(num / den) / 2 ^ e`. -/
def scale_den (den : Nat) (e : Int) : Nat :=
  if e < 0 then den else den * 2 ^ e.toNat

/-- The position of the highest set bit of `n`, found by halving; the first
argument bounds the number of halvings. -/
def log2_floor : Nat → Nat → Nat
  | 0, _ => 0
  | fuel + 1, n => if n < 2 then 0 else log2_floor fuel (n / 2) + 1

/-- The exponent `e` of the last place of the 53-bit significand of
`num / den`: `2 ^ 52 ≤ (num / den) / 2 ^ e < 2 ^ 53`. -/
def double_exponent (num den : Nat) : Int :=
  let e0 : Int := (log2_floor num num : Int) - (log2_floor den den : Int) - 52
  if scale_num num e0 < 2 ^ 52 * scale_den den e0 then e0 - 1 else e0

/-- The `double` nearest to a ratio: IEEE 754 binary64, 53 significant bits,
round to nearest, ties to even.  The exponent range is not limited; in the
expressions of `dictionary.c`, with `max_load` a `double` in (0, 1], no
result leaves the range of the normal numbers without being exact. -/
def round_double (q : ℚ) : ℚ :=
  if q = 0 then 0
  else
    let e := double_exponent q.num.natAbs q.den
    let m := round_half_even (scale_num q.num.natAbs e) (scale_den q.den e)
    let a : ℚ :=
      if e < 0 then ((m : Nat) : ℚ) / ((2 ^ (-e).toNat : Nat) : ℚ)
      else ((m : Nat) : ℚ) * ((2 ^ e.toNat : Nat) : ℚ)
    if q < 0 then -a else a

/-- The conversion of a `size_t` to `double`. -/
def size_to_double (n : Nat) : ℚ := round_double (n : ℚ)

/-- The conversion of a `double` to `size_t`: the fractional part is
discarded; the result is `none` when the integral part is not a `size_t`
value, which the C standard leaves undefined. -/
def double_to_size (x : ℚ) : Option Nat :=
  let t : Int := if 0 ≤ x then x.floor else x.ceil
  if 0 ≤ t ∧ t ≤ (SIZE_MAX : Int) then some t.toNat else none

/-- The growth test of `cobj_dictionary_write` as the machine evaluates it,
`dict->n >= dict->n_alloc * dict->max_load`: both integers are converted to
`double` and the product is rounded. -/
def growth_test (dict : _dictionary_t) : Prop :=
  size_to_double dict.n ≥ round_double (size_to_double dict.n_alloc * dict.max_load)

/-- The function `cobj_dictionary_write` with its growth test evaluated in
double precision, as the machine does; `cobj_dictionary_write` above takes the
same test over exact ratios, and the two agree on everything else. -/
def cobj_dictionary_write_double (dict : _dictionary_t) (key : Option (List Int))
    (group value : Nat) (calloc_ok : Bool) : Except Fault _dictionary_t :=
  if dict.failed then .ok dict
  else if size_to_double dict.n ≥
      round_double (size_to_double dict.n_alloc * dict.max_load) then
    match _resize dict dict.n_alloc 2 1 calloc_ok with
    | .error e => .error e
    | .ok (false, dict) => .ok dict
    | .ok (true, dict) => _write_probe dict (_hash key group) group value
  else _write_probe dict (_hash key group) group value

/-- The function `cobj_dictionary_create` with the capacity test and the
quotient `n_alloc / max_load` evaluated in double precision, as the machine
does, and the quotient converted to `size_t`; `cobj_dictionary_create` above
takes both over exact ratios. -/
def cobj_dictionary_create_double (n_alloc : Nat) (max_load : ℚ) (malloc_ok calloc_ok : Bool) :
    Except Fault _dictionary_t :=
  if ¬ (0 < max_load ∧ max_load ≤ 1) then .error .assertion
  else if size_to_double n_alloc > round_double (size_to_double SIZE_MAX * max_load) then
    .ok _err_dict
  else if malloc_ok = false then .ok _err_dict
  else
    match double_to_size (round_double (size_to_double n_alloc / max_load)) with
    | none => .error .out_of_range
    | some n =>
      match _resize { slots := [], n := 0, n_alloc := 0, max_load := max_load, failed := false }
          n 1 0 calloc_ok with
      | .error e => .error e
      | .ok (_, dict) => .ok dict

/-- Run a batch of `write` calls, first to last, with the growth test in
double precision. -/
def write_list_double : _dictionary_t → List WriteCall → Except Fault _dictionary_t
  | d, [] => .ok d
  | d, w :: ws =>
    match cobj_dictionary_write_double d w.key w.group w.value w.calloc_ok with
    | .error e => .error e
    | .ok d2 => write_list_double d2 ws

/-- The `double` nearest to 0.4. -/
def double_0_4 : ℚ := 3602879701896397 / 9007199254740992

/-- The `double` nearest to 0.6. -/
def double_0_6 : ℚ := 5404319552844595 / 9007199254740992

/-- The `double` nearest to 0.1. -/
def double_0_1 : ℚ := 3602879701896397 / 36028797018963968

/-- The `double` nearest to 0.07. -/
def double_0_07 : ℚ := 1261007895663739 / 18014398509481984

/-- The `double` nearest to 0.56. -/
def double_0_56 : ℚ := 1261007895663739 / 2251799813685248

/-- Writes of the key `"k"` in the groups of the list, each with value 1 and
a successful allocation. -/
def writes_k (groups : List Nat) : List WriteCall :=
  groups.map (fun g => ⟨key_k, g, 1, true⟩)

/-- The capacity of the dictionary a call returned, if it returned one. -/
def returned_alloc : Except Fault _dictionary_t → Option Nat
  | .ok d => some d.n_alloc
  | .error _ => none

/-- The dictionary made by `create(6, 0.4)` and writes of `"k"` in the groups
0 to 5: six entries in fifteen slots. -/
def dict_6_15 : _dictionary_t :=
  { slots := [⟨0, 0, 0, ._UNUSED⟩, ⟨0, 0, 0, ._UNUSED⟩,
      ⟨186546604375145177, 1, 5, ._OCCUPIED⟩, ⟨0, 0, 0, ._UNUSED⟩,
      ⟨4471800921297618994, 1, 2, ._OCCUPIED⟩, ⟨15568125525797629565, 1, 1, ._OCCUPIED⟩,
      ⟨0, 0, 0, ._UNUSED⟩, ⟨0, 0, 0, ._UNUSED⟩, ⟨0, 0, 0, ._UNUSED⟩,
      ⟨1100461951385166294, 1, 4, ._OCCUPIED⟩, ⟨12787414733033579425, 1, 3, ._OCCUPIED⟩,
      ⟨0, 0, 0, ._UNUSED⟩, ⟨16482040872807650682, 1, 0, ._OCCUPIED⟩,
      ⟨0, 0, 0, ._UNUSED⟩, ⟨0, 0, 0, ._UNUSED⟩]
    n := 6, n_alloc := 15, max_load := double_0_4, failed := false }

/-- The dictionary made by `create(7, 0.56)` and writes of `"k"` in the groups
0 to 13: the capacity, first 12, has become 25 at the eighth write. -/
def dict_14_25 : _dictionary_t :=
  { slots := [⟨12787414733033579425, 1, 3, ._OCCUPIED⟩, ⟨0, 0, 0, ._UNUSED⟩,
      ⟨186546604375145177, 1, 5, ._OCCUPIED⟩, ⟨16796113581968590178, 1, 10, ._OCCUPIED⟩,
      ⟨6649748486877534977, 1, 11, ._OCCUPIED⟩, ⟨0, 0, 0, ._UNUSED⟩,
      ⟨333664874959568506, 1, 8, ._OCCUPIED⟩, ⟨16482040872807650682, 1, 0, ._OCCUPIED⟩,
      ⟨0, 0, 0, ._UNUSED⟩, ⟨2410891620294240509, 1, 7, ._OCCUPIED⟩, ⟨0, 0, 0, ._UNUSED⟩,
      ⟨2524215050965257561, 1, 13, ._OCCUPIED⟩, ⟨13409539778938673462, 1, 12, ._OCCUPIED⟩,
      ⟨0, 0, 0, ._UNUSED⟩, ⟨0, 0, 0, ._UNUSED⟩, ⟨15568125525797629565, 1, 1, ._OCCUPIED⟩,
      ⟨0, 0, 0, ._UNUSED⟩, ⟨9421839681380486717, 1, 9, ._OCCUPIED⟩, ⟨0, 0, 0, ._UNUSED⟩,
      ⟨1100461951385166294, 1, 4, ._OCCUPIED⟩, ⟨4471800921297618994, 1, 2, ._OCCUPIED⟩,
      ⟨0, 0, 0, ._UNUSED⟩, ⟨0, 0, 0, ._UNUSED⟩, ⟨0, 0, 0, ._UNUSED⟩,
      ⟨7537001257956788974, 1, 6, ._OCCUPIED⟩]
    n := 14, n_alloc := 25, max_load := double_0_56, failed := false }

/-! ## The probe contract -/

theorem find_slot_loop_spec (d : _dictionary_t) (hash : Nat) (cut : _state_t) (i0 : Nat)
    (hlen : d.slots.length = d.n_alloc) (hcap : d.n_alloc ≤ SIZE_MAX) (hi0 : i0 < d.n_alloc) :
    ∀ (fuel i : Nat) (slot : _slot_t), i < d.n_alloc → d.slots[i]? = some slot →
      d.n_alloc ≤ fuel + (if i0 ≤ i then i - i0 else d.n_alloc - i0 + i) →
      (∀ (j : Nat) (t : _slot_t), between d.slots.length i0 i j → d.slots[j]? = some t → ¬ stops cut hash t) →
      (∃ q, _find_slot_loop d hash cut i0 fuel i slot = .ok (some q) ∧
          first_stop d.slots cut hash i0 q) ∨
        (_find_slot_loop d hash cut i0 fuel i slot = .ok none ∧
          ∀ (j : Nat) (t : _slot_t), d.slots[j]? = some t → ¬ stops cut hash t) := by
  have h64 : d.n_alloc < 2 ^ 64 := by
    have : SIZE_MAX = 2 ^ 64 - 1 := rfl
    omega
  intro fuel
  induction fuel with
  | zero =>
    intro i slot hi _ hfuel _
    exfalso
    split_ifs at hfuel <;> omega
  | succ fuel ih =>
    intro i slot hi hslot hfuel hpre
    unfold _find_slot_loop
    by_cases hc : cut.val < slot.state.val ∧ slot.hash ≠ hash
    · rw [if_pos hc]
      have hmod : (i + 1) % 2 ^ 64 = i + 1 := Nat.mod_eq_of_lt (by omega)
      simp only [hmod]
      by_cases hwrap : i + 1 ≥ d.n_alloc
      · simp only [hwrap, if_true]
        by_cases h0 : 0 = i0
        · right
          simp only [h0, if_true, true_and]
          intro j t hj
          have hjN : j < d.n_alloc := by
            rw [← hlen]; exact (List.getElem?_eq_some_iff.mp hj).1
          by_cases hji : j = i
          · subst hji
            rw [hslot] at hj
            cases hj
            exact fun hs => hs hc
          · exact hpre j t (by unfold between; omega) hj
        · simp only [h0, if_false]
          have h0N : 0 < d.slots.length := by omega
          obtain ⟨s0, hs0⟩ : ∃ s0, d.slots[0]? = some s0 :=
            ⟨d.slots[0], List.getElem?_eq_getElem h0N⟩
          simp only [hs0]
          refine ih 0 s0 (by omega) hs0 ?_ ?_
          · split_ifs at hfuel ⊢ <;> omega
          · intro j t hb hj
            by_cases hji : j = i
            · subst hji
              rw [hslot] at hj
              cases hj
              exact fun hs => hs hc
            · exact hpre j t (by unfold between at hb ⊢; omega) hj
      · simp only [hwrap, if_false]
        by_cases h0 : i + 1 = i0
        · right
          simp only [h0, if_true, true_and]
          intro j t hj
          have hjN : j < d.n_alloc := by
            rw [← hlen]; exact (List.getElem?_eq_some_iff.mp hj).1
          by_cases hji : j = i
          · subst hji
            rw [hslot] at hj
            cases hj
            exact fun hs => hs hc
          · exact hpre j t (by unfold between; omega) hj
        · simp only [h0, if_false]
          have h0N : i + 1 < d.slots.length := by omega
          obtain ⟨s0, hs0⟩ : ∃ s0, d.slots[i + 1]? = some s0 :=
            ⟨d.slots[i + 1], List.getElem?_eq_getElem h0N⟩
          simp only [hs0]
          refine ih (i + 1) s0 (by omega) hs0 ?_ ?_
          · split_ifs at hfuel ⊢ <;> omega
          · intro j t hb hj
            by_cases hji : j = i
            · subst hji
              rw [hslot] at hj
              cases hj
              exact fun hs => hs hc
            · exact hpre j t (by unfold between at hb ⊢; omega) hj
    · rw [if_neg hc]
      left
      exact ⟨i, rfl, ⟨slot, hslot, hc⟩, by rw [hlen] at hpre ⊢; exact hpre⟩

theorem find_slot_spec (d : _dictionary_t) (hash : Nat) (cut : _state_t)
    (hlen : d.slots.length = d.n_alloc) (hcap : d.n_alloc ≤ SIZE_MAX) (hpos : 0 < d.n_alloc) :
    (∃ q, _find_slot d hash cut = .ok (some q) ∧
        first_stop d.slots cut hash (hash % d.n_alloc) q) ∨
      (_find_slot d hash cut = .ok none ∧
        ∀ (j : Nat) (t : _slot_t), d.slots[j]? = some t → ¬ stops cut hash t) := by
  have hi0 : hash % d.n_alloc < d.n_alloc := Nat.mod_lt _ hpos
  have hne : d.n_alloc ≠ 0 := by omega
  obtain ⟨s0, hs0⟩ : ∃ s0, d.slots[hash % d.n_alloc]? = some s0 :=
    ⟨d.slots[hash % d.n_alloc], List.getElem?_eq_getElem (by omega)⟩
  unfold _find_slot
  simp only [hne, if_false, hs0]
  refine find_slot_loop_spec d hash cut _ hlen hcap hi0 d.n_alloc _ s0 hi0 hs0 ?_ ?_
  · simp
  · intro j t hb
    exfalso
    unfold between at hb
    omega

theorem first_stop_unique (slots : List _slot_t) (cut : _state_t) (hash i0 q q2 : Nat)
    (h1 : first_stop slots cut hash i0 q)
    (h2 : first_stop slots cut hash i0 q2) : q = q2 := by
  obtain ⟨⟨s, hs, hstop⟩, hpre⟩ := h1
  obtain ⟨⟨s2, hs2, hstop2⟩, hpre2⟩ := h2
  have hq : q < slots.length := (List.getElem?_eq_some_iff.mp hs).1
  have hq2 : q2 < slots.length := (List.getElem?_eq_some_iff.mp hs2).1
  by_contra hne
  by_cases hb : between slots.length i0 q q2
  · exact hpre q2 s2 hb hs2 hstop2
  · exact hpre2 q s (by unfold between at hb ⊢; omega) hs hstop

theorem find_slot_eq_some (d : _dictionary_t) (hash : Nat) (cut : _state_t) (q : Nat)
    (hlen : d.slots.length = d.n_alloc) (hcap : d.n_alloc ≤ SIZE_MAX)
    (h : first_stop d.slots cut hash (hash % d.n_alloc) q) :
    _find_slot d hash cut = .ok (some q) := by
  obtain ⟨s, hs, hstop⟩ := h.1
  have hq : q < d.slots.length := (List.getElem?_eq_some_iff.mp hs).1
  have hpos : 0 < d.n_alloc := by omega
  rcases find_slot_spec d hash cut hlen hcap hpos with ⟨q2, hq2, hf⟩ | ⟨_, hnone⟩
  · have := first_stop_unique d.slots cut hash _ q q2 h hf
    rw [hq2, this]
  · exact absurd hstop (hnone q s hs)

theorem find_slot_none_elim (d : _dictionary_t) (hash : Nat) (cut : _state_t)
    (hlen : d.slots.length = d.n_alloc) (hcap : d.n_alloc ≤ SIZE_MAX) (hpos : 0 < d.n_alloc)
    (h : _find_slot d hash cut = .ok none) :
    ∀ (j : Nat) (t : _slot_t), d.slots[j]? = some t → ¬ stops cut hash t := by
  rcases find_slot_spec d hash cut hlen hcap hpos with ⟨q2, hq2, _⟩ | ⟨_, hn⟩
  · rw [h] at hq2
    cases hq2
  · exact hn

/-! ## Occupied slots and lookup -/

theorem live_set (slots : List _slot_t) (p : Nat) (s s2 : _slot_t) (hp : slots[p]? = some s) :
    live (slots.set p s2) + (if s.state = ._OCCUPIED then 1 else 0) =
      live slots + (if s2.state = ._OCCUPIED then 1 else 0) := by
  obtain ⟨hpl, hget⟩ := List.getElem?_eq_some_iff.mp hp
  unfold live
  rw [List.countP_set _ _ _ _ hpl, hget]
  simp only [decide_eq_true_eq]
  by_cases hs : s.state = ._OCCUPIED
  · have hpos : 0 < List.countP (fun s => decide (s.state = ._OCCUPIED)) slots := by
      rw [List.countP_pos_iff]
      exact ⟨s, List.mem_iff_getElem?.mpr ⟨p, hp⟩, by simp [hs]⟩
    simp only [hs, if_true]
    omega
  · simp only [hs, if_false]
    omega

theorem exists_free (slots : List _slot_t) (h : live slots < slots.length) :
    ∃ (q : Nat) (t : _slot_t), slots[q]? = some t ∧ t.state ≠ ._OCCUPIED := by
  by_contra hno
  have hall : ∀ a ∈ slots, decide (a.state = ._OCCUPIED) = true := by
    intro a ha
    obtain ⟨q, hq⟩ := List.mem_iff_getElem?.mp ha
    by_contra hna
    exact hno ⟨q, a, hq, by simpa using hna⟩
  have := List.countP_eq_length.mpr hall
  unfold live at h
  omega

theorem replicate_zero_get (n j : Nat) (t : _slot_t)
    (h : (List.replicate n zero_slot)[j]? = some t) : t = zero_slot := by
  rw [List.getElem?_replicate] at h
  split at h
  · cases h
    rfl
  · cases h

theorem clear_spec (d : _dictionary_t) (hlen : d.slots.length = d.n_alloc)
    (hf : d.failed = false) :
    cobj_dictionary_clear d =
      .ok { d with slots := List.replicate d.n_alloc zero_slot, n := 0 } := by
  unfold cobj_dictionary_clear
  simp [hf, hlen]

theorem reachable_dict_0 : Reachable dict_0 :=
  Reachable.create 0 (3 / 5) true true dict_0 (by decide!)

/-- C9: on a dictionary that has not failed and whose slot array has `n_alloc`
slots, `clear` returns; afterwards the live count is 0, the capacity is what
it was, every slot is the zero slot (so Unused), and `find` returns false for
every key and group. -/
theorem C9_clear (d : _dictionary_t) (hlen : d.slots.length = d.n_alloc)
    (hf : d.failed = false) :
    ∃ d2, cobj_dictionary_clear d = .ok d2 ∧ d2.failed = false ∧ d2.n = 0 ∧
      cobj_dictionary_get_load d2 = 0 ∧ d2.n_alloc = d.n_alloc ∧
      cobj_dictionary_get_alloc_size d2 = cobj_dictionary_get_alloc_size d ∧
      d2.slots.length = d.n_alloc ∧
      (∀ s ∈ d2.slots, s = zero_slot ∧ s.state = ._UNUSED) ∧
      ∀ (key : Option (List Int)) (group : Nat), cobj_dictionary_find d2 key group = .ok none := by
  refine ⟨_, clear_spec d hlen hf, hf, rfl, ?_, rfl, ?_, by simp, ?_, ?_⟩
  · simp [cobj_dictionary_get_load]
  · simp [cobj_dictionary_get_alloc_size, hf]
  · intro s hs
    rw [List.eq_of_mem_replicate hs]
    exact ⟨rfl, rfl⟩
  · intro key group
    simp [cobj_dictionary_find, hf]

theorem C9_clear_witness :
    dict_AB.slots.length = dict_AB.n_alloc ∧ dict_AB.failed = false ∧
      ∃ d2, cobj_dictionary_clear dict_AB = .ok d2 ∧ d2.failed = false ∧ d2.n = 0 ∧
        cobj_dictionary_get_load d2 = 0 ∧ d2.n_alloc = dict_AB.n_alloc ∧
        cobj_dictionary_get_alloc_size d2 = cobj_dictionary_get_alloc_size dict_AB ∧
        d2.slots.length = dict_AB.n_alloc ∧
        (∀ s ∈ d2.slots, s = zero_slot ∧ s.state = ._UNUSED) ∧
        ∀ (key : Option (List Int)) (group : Nat),
          cobj_dictionary_find d2 key group = .ok none :=
  ⟨rfl, rfl, C9_clear dict_AB rfl rfl⟩

/-- C10: on a dictionary whose failed flag is set, `write`, `erase`, `clear`
and `clear_group`, with any arguments, return the very same dictionary (flag
still set, `n`, `n_alloc` and every slot unchanged), and so does every
sequence of these calls. -/
theorem C10_failure_sticks (d : _dictionary_t) (hf : d.failed = true) :
    (∀ (key : Option (List Int)) (group value : Nat) (calloc_ok : Bool),
        cobj_dictionary_write d key group value calloc_ok = .ok d) ∧
      (∀ (key : Option (List Int)) (group : Nat), cobj_dictionary_erase d key group = .ok d) ∧
      cobj_dictionary_clear d = .ok d ∧
      (∀ (fuel group : Nat), cobj_dictionary_clear_group fuel d group = .ok d) ∧
      ∀ ops : List Op, run_ops d ops = .ok d := by
  have hw : ∀ (key : Option (List Int)) (group value : Nat) (calloc_ok : Bool),
      cobj_dictionary_write d key group value calloc_ok = .ok d := by
    intro key group value calloc_ok
    simp [cobj_dictionary_write, hf]
  have he : ∀ (key : Option (List Int)) (group : Nat),
      cobj_dictionary_erase d key group = .ok d := by
    intro key group
    simp [cobj_dictionary_erase, hf]
  have hc : cobj_dictionary_clear d = .ok d := by
    simp [cobj_dictionary_clear, hf]
  have hg : ∀ (fuel group : Nat), cobj_dictionary_clear_group fuel d group = .ok d := by
    intro fuel group
    simp [cobj_dictionary_clear_group, hf]
  refine ⟨hw, he, hc, hg, ?_⟩
  intro ops
  induction ops with
  | nil => rfl
  | cons op ops ih =>
    have hop : apply_op d op = .ok d := by
      cases op with
      | write key group value calloc_ok => exact hw key group value calloc_ok
      | erase key group => exact he key group
      | clear => exact hc
      | clear_group fuel group => exact hg fuel group
    simp only [run_ops, hop]
    exact ih

theorem C10_failure_sticks_witness :
    _err_dict.failed = true ∧
      ((∀ (key : Option (List Int)) (group value : Nat) (calloc_ok : Bool),
          cobj_dictionary_write _err_dict key group value calloc_ok = .ok _err_dict) ∧
        (∀ (key : Option (List Int)) (group : Nat),
          cobj_dictionary_erase _err_dict key group = .ok _err_dict) ∧
        cobj_dictionary_clear _err_dict = .ok _err_dict ∧
        (∀ (fuel group : Nat), cobj_dictionary_clear_group fuel _err_dict group = .ok _err_dict) ∧
        ∀ ops : List Op, run_ops _err_dict ops = .ok _err_dict) :=
  ⟨rfl, C10_failure_sticks _err_dict rfl⟩

/-- C6: the code at the failing input.  On the fresh dictionary of
`create(0, 0.6)`, `write("k", 0, 1)` followed by `write("k", 2048, 2)`, neither
failing, leaves one single entry: `find("k", 0)` returns 2 instead of 1 and the
live count is 1, because `_hash("k", 0) = _hash("k", 2048)`. -/
theorem C6_group_isolation_fails :
    cobj_dictionary_create 0 (3 / 5) true true = .ok dict_0 ∧
      cobj_dictionary_write dict_0 key_k 0 1 true = .ok dict_k0 ∧
      cobj_dictionary_write dict_k0 key_k 2048 2 true = .ok dict_k0_k2048 ∧
      dict_k0.failed = false ∧ dict_k0_k2048.failed = false ∧
      (0 : Nat) ≠ 2048 ∧ 2048 < 2 ^ 32 ∧
      _hash key_k 0 = _hash key_k 2048 ∧
      cobj_dictionary_find dict_k0_k2048 key_k 0 = .ok (some 2) ∧
      cobj_dictionary_find dict_k0_k2048 key_k 2048 = .ok (some 2) ∧
      cobj_dictionary_get_load dict_k0_k2048 = 1 := by
  refine ⟨?_, ?_, ?_, rfl, rfl, ?_, ?_, ?_, ?_, ?_, ?_⟩ <;> decide!

/-! ## Group clear -/

theorem clear_group_loop_diverges (group : Nat) :
    ∀ (fuel i : Nat) (d : _dictionary_t), d.slots.length = d.n_alloc → 2 ^ 32 ≤ d.n_alloc →
      i < 2 ^ 32 → _clear_group_loop group fuel i d = .error .out_of_fuel := by
  intro fuel
  induction fuel with
  | zero =>
    intro i d _ _ _
    rfl
  | succ fuel ih =>
    intro i d hlen hcap hi
    unfold _clear_group_loop
    rw [if_pos (by omega)]
    obtain ⟨s, hs⟩ : ∃ s, d.slots[i]? = some s :=
      ⟨d.slots[i], List.getElem?_eq_getElem (by omega)⟩
    have hlt : (i + 1) % 2 ^ 32 < 2 ^ 32 := Nat.mod_lt _ (by decide)
    simp only [hs]
    by_cases hc : s.state = ._OCCUPIED ∧ s.group = group
    · rw [if_pos hc]
      exact ih _ _ (by simpa using hlen) hcap hlt
    · rw [if_neg hc]
      exact ih _ _ hlen hcap hlt

theorem create_dict_big_0 : cobj_dictionary_create (2 ^ 32) 1 true true = .ok dict_big_0 := by
  have h1 : ¬ ((((2 ^ 32 : Nat) : ℚ)) > (SIZE_MAX : ℚ) * 1) := by decide!
  have h2 : ((((2 ^ 32 : Nat) : ℚ)) / 1).floor.toNat = 2 ^ 32 := by decide!
  have h3 : (0 : ℚ) < 1 ∧ (1 : ℚ) ≤ 1 := by decide!
  unfold cobj_dictionary_create
  rw [if_neg (not_not.mpr h3), if_neg h1, if_neg (by decide), h2]
  have h4 : safe_mul (2 ^ 32) 1 = some (2 ^ 32) := by decide
  have h5 : safe_add (2 ^ 32) 0 = some (2 ^ 32) := by decide
  have h6 : safe_mul (2 ^ 32) sizeof_slot_t = some (2 ^ 32 * sizeof_slot_t) := by decide
  unfold _resize
  simp only [h4, h5, h6]
  rw [if_neg (by decide), if_neg (by decide)]
  rfl

theorem reachable_dict_big_0 : Reachable dict_big_0 :=
  Reachable.create (2 ^ 32) 1 true true dict_big_0 create_dict_big_0


theorem dict_big_0_len : dict_big_0.slots.length = dict_big_0.n_alloc := by
  show (List.replicate (2 ^ 32) zero_slot).length = 2 ^ 32
  exact List.length_replicate _ _

theorem dict_big_len : dict_big.slots.length = dict_big.n_alloc := by
  show ((List.replicate (2 ^ 32) zero_slot).set _ _).length = 2 ^ 32
  rw [List.length_set]
  exact List.length_replicate _ _

theorem write_into_unused (d : _dictionary_t) (hlen : d.slots.length = d.n_alloc)
    (hcap : d.n_alloc ≤ SIZE_MAX) (hf : d.failed = false)
    (hg : ¬ ((d.n : ℚ) ≥ (d.n_alloc : ℚ) * d.max_load))
    (key : Option (List Int)) (group value : Nat) (calloc_ok : Bool)
    (hs : d.slots[_hash key group % d.n_alloc]? = some zero_slot) :
    cobj_dictionary_write d key group value calloc_ok =
      .ok { d with
        slots := d.slots.set (_hash key group % d.n_alloc)
          ⟨_hash key group, to_int64 value, group, ._OCCUPIED⟩
        n := size_inc d.n } := by
  have hfs : _find_slot d (_hash key group) ._DELETED =
      .ok (some (_hash key group % d.n_alloc)) := by
    apply find_slot_eq_some d _ _ _ hlen hcap
    refine ⟨⟨zero_slot, hs, fun hc => absurd hc.1 (by decide)⟩, ?_⟩
    intro j t hb
    exfalso
    unfold between at hb
    omega
  unfold cobj_dictionary_write
  rw [if_neg (by simp [hf]), if_neg hg]
  unfold _write_probe
  simp only [hfs, hs]
  rfl

theorem write_dict_big : cobj_dictionary_write dict_big_0 key_k 0 1 true = .ok dict_big := by
  have hg : ¬ ((dict_big_0.n : ℚ) ≥ (dict_big_0.n_alloc : ℚ) * dict_big_0.max_load) := by
    show ¬ (((0 : Nat) : ℚ) ≥ ((2 ^ 32 : Nat) : ℚ) * 1)
    decide!
  have hh : _hash key_k 0 = 16482040872807650682 := by decide!
  have hs : dict_big_0.slots[_hash key_k 0 % dict_big_0.n_alloc]? = some zero_slot := by
    rw [hh]
    show (List.replicate (2 ^ 32) zero_slot)[16482040872807650682 % 2 ^ 32]? = some zero_slot
    rw [List.getElem?_replicate, if_pos (by decide)]
  rw [write_into_unused dict_big_0 dict_big_0_len (by decide) rfl hg key_k 0 1 true hs, hh]
  rfl

theorem reachable_dict_big : Reachable dict_big :=
  Reachable.write dict_big_0 key_k 0 1 true dict_big reachable_dict_big_0 write_dict_big

theorem clear_group_dict_big (fuel group : Nat) :
    cobj_dictionary_clear_group fuel dict_big group = .error .out_of_fuel := by
  have hf : ¬ (dict_big.failed = true) := by
    show ¬ (false = true)
    decide
  have hn : ¬ (dict_big.n = 0) := by
    show ¬ (1 = 0)
    decide
  unfold cobj_dictionary_clear_group
  rw [if_neg hf, if_neg hn]
  exact clear_group_loop_diverges group fuel 0 dict_big dict_big_len (le_refl _) (by decide)

/-- C11: on a dictionary whose failed flag is set, whatever its slot array
holds, `get_load` returns 0, `get_alloc_size` returns 0, `get_load_factor`
returns 0, `has_failed` returns true and `find` returns false for every key
and group. -/
theorem C11_failed_reads (d : _dictionary_t) (hf : d.failed = true) :
    cobj_dictionary_get_load d = 0 ∧ cobj_dictionary_get_alloc_size d = 0 ∧
      cobj_dictionary_get_load_factor d = .ok 0 ∧ cobj_dictionary_has_failed d = true ∧
      ∀ (key : Option (List Int)) (group : Nat), cobj_dictionary_find d key group = .ok none := by
  refine ⟨?_, ?_, ?_, hf, fun key group => ?_⟩
  · simp [cobj_dictionary_get_load, hf]
  · simp [cobj_dictionary_get_alloc_size, hf]
  · simp [cobj_dictionary_get_load_factor, hf]
  · simp [cobj_dictionary_find, hf]

theorem C11_failed_reads_witness :
    ({ dict_AB with failed := true } : _dictionary_t).failed = true ∧
      (cobj_dictionary_get_load { dict_AB with failed := true } = 0 ∧
        cobj_dictionary_get_alloc_size { dict_AB with failed := true } = 0 ∧
        cobj_dictionary_get_load_factor { dict_AB with failed := true } = .ok 0 ∧
        cobj_dictionary_has_failed { dict_AB with failed := true } = true ∧
        ∀ (key : Option (List Int)) (group : Nat),
          cobj_dictionary_find { dict_AB with failed := true } key group = .ok none) ∧
      cobj_dictionary_get_placeholder.deref = some _err_dict ∧ _err_dict.failed = true :=
  ⟨rfl, C11_failed_reads { dict_AB with failed := true } rfl, rfl, rfl⟩

/-- C19: `destroy` on a handle to a heap dictionary leaves the placeholder
handle, which points to `_err_dict` (failed, `n = 0`, `n_alloc = 0`,
`max_load = 1`); `destroy` on the placeholder handle leaves it unchanged; so
destroying twice gives what destroying once gives. -/
theorem C19_destroy (d : _dictionary_t) :
    cobj_dictionary_destroy (.heap d) = .ok cobj_dictionary_get_placeholder ∧
      cobj_dictionary_get_placeholder.deref = some _err_dict ∧
      _err_dict.failed = true ∧ _err_dict.n = 0 ∧ _err_dict.n_alloc = 0 ∧
      _err_dict.max_load = 1 ∧ _err_dict.slots = [] ∧
      cobj_dictionary_destroy cobj_dictionary_get_placeholder =
        .ok cobj_dictionary_get_placeholder ∧
      ∀ h h2 : dict_ptr, cobj_dictionary_destroy h = .ok h2 →
        cobj_dictionary_destroy h2 = .ok h2 := by
  refine ⟨rfl, rfl, rfl, rfl, rfl, rfl, rfl, rfl, ?_⟩
  intro h h2 hd
  cases h with
  | null => cases hd
  | placeholder =>
    cases hd
    rfl
  | heap d0 =>
    cases hd
    rfl

theorem resize_move_total (old : List _slot_t) :
    ∀ (rem i : Nat) (nd : _dictionary_t), i + rem = old.length →
      nd.slots.length = nd.n_alloc → nd.n_alloc ≤ SIZE_MAX → old.length < nd.n_alloc →
      (∀ (j : Nat) (t : _slot_t), nd.slots[j]? = some t → t.state ≠ ._DELETED) →
      live nd.slots ≤ i →
      ∃ d2, _resize_move old rem i nd = .ok d2 ∧ d2.n = nd.n ∧ d2.n_alloc = nd.n_alloc ∧
        d2.max_load = nd.max_load ∧ d2.failed = nd.failed ∧
        d2.slots.length = nd.slots.length := by
  intro rem
  induction rem with
  | zero =>
    intro i nd _ _ _ _ _ _
    exact ⟨nd, rfl, rfl, rfl, rfl, rfl, rfl⟩
  | succ rem ih =>
    intro i nd hi hlen hcap hlt hnd hlive
    have hil : i < old.length := by omega
    obtain ⟨o, ho⟩ : ∃ o, old[i]? = some o := ⟨old[i], List.getElem?_eq_getElem hil⟩
    unfold _resize_move
    simp only [ho]
    by_cases hocc : o.state = ._OCCUPIED
    · simp only [hocc, if_true]
      have hpos : 0 < nd.n_alloc := by omega
      rcases find_slot_spec nd o.hash ._UNUSED hlen hcap hpos with ⟨q, hq, hfs⟩ | ⟨_, hno⟩
      · obtain ⟨⟨t, ht, _⟩, _⟩ := hfs
        have hql : q < nd.slots.length := (List.getElem?_eq_some_iff.mp ht).1
        simp only [hq, hql, if_true]
        have hlive2 := live_set nd.slots q t o ht
        rw [if_pos hocc] at hlive2
        obtain ⟨d2, h1, h2, h3, h4, h5, h6⟩ :=
          ih (i + 1) { nd with slots := nd.slots.set q o } (by omega)
            (by simpa using hlen) hcap hlt
            (by
              intro j u hj
              rw [List.getElem?_set] at hj
              by_cases hqj : q = j
              · simp only [hqj, if_true] at hj
                split at hj
                · cases hj
                  rw [hocc]
                  decide
                · cases hj
              · simp only [hqj, if_false] at hj
                exact hnd j u hj)
            (by dsimp only; omega)
        refine ⟨d2, h1, h2, h3, h4, h5, ?_⟩
        rw [h6]
        simp
      · exfalso
        obtain ⟨q, t, hq, ht⟩ := exists_free nd.slots (by omega)
        apply hno q t hq
        intro hc
        have h1 := hc.1
        have h2 := hnd q t hq
        have hst : t.state = ._UNUSED := by
          cases h : t.state
          · rfl
          · exact absurd h h2
          · exact absurd h ht
        rw [hst] at h1
        exact absurd h1 (by decide)
    · simp only [hocc, if_false]
      exact ih (i + 1) nd (by omega) hlen hcap hlt hnd (by omega)

theorem resize_noop (d : _dictionary_t) (n a b : Nat) (calloc_ok : Bool)
    (hfit : resize_fits n a b) (hle : n * a + b ≤ d.n_alloc) :
    _resize d n a b calloc_ok = .ok (true, d) := by
  obtain ⟨h1, h2, h3⟩ := hfit
  unfold _resize safe_mul safe_add
  simp only [h1, h2, h3, hle, if_true]

theorem resize_fail (d : _dictionary_t) (n a b : Nat) (calloc_ok : Bool)
    (hcause : ¬ resize_fits n a b ∨ (d.n_alloc < n * a + b ∧ calloc_ok = false)) :
    _resize d n a b calloc_ok = .ok (false, { d with failed := true }) := by
  unfold _resize safe_mul safe_add
  by_cases h1 : n * a ≤ SIZE_MAX
  · simp only [h1, if_true]
    by_cases h2 : n * a + b ≤ SIZE_MAX
    · simp only [h2, if_true]
      by_cases h3 : (n * a + b) * sizeof_slot_t ≤ SIZE_MAX
      · simp only [h3, if_true]
        rcases hcause with hno | ⟨hlt, hok⟩
        · exact absurd ⟨h1, h2, h3⟩ hno
        · rw [if_neg (by omega), if_pos hok]
      · simp only [h3, if_false]
    · simp only [h2, if_false]
  · simp only [h1, if_false]

theorem resize_grow (d : _dictionary_t) (hlen : d.slots.length = d.n_alloc) (n a b : Nat)
    (hfit : resize_fits n a b) (hlt : d.n_alloc < n * a + b) :
    ∃ d2, _resize d n a b true = .ok (true, d2) ∧ d2.n_alloc = n * a + b ∧
      d2.slots.length = n * a + b ∧ d2.n = d.n ∧ d2.max_load = d.max_load ∧
      d2.failed = d.failed := by
  obtain ⟨h1, h2, h3⟩ := hfit
  obtain ⟨d2, k1, k2, k3, k4, k5, k6⟩ :=
    resize_move_total d.slots d.n_alloc 0
      { d with slots := List.replicate (n * a + b) zero_slot, n_alloc := n * a + b }
      (by simpa using hlen.symm) (by simp) h2 (by rw [hlen]; exact hlt)
      (by
        intro j t hj
        rw [replicate_zero_get _ _ _ hj]
        decide)
      (by simp [live, zero_slot, List.countP_replicate])
  refine ⟨d2, ?_, k3, ?_, k2, k4, k5⟩
  · unfold _resize safe_mul safe_add
    simp only [h1, h2, h3, if_true]
    rw [if_neg (by omega), if_neg (by decide), k1]
  · rw [k6]
    simp

theorem write_probe_total (d : _dictionary_t) (hlen : d.slots.length = d.n_alloc)
    (hcap : d.n_alloc ≤ SIZE_MAX) (hpos : 0 < d.n_alloc) (hash group value : Nat) :
    ∃ d2, _write_probe d hash group value = .ok d2 ∧ d2.n_alloc = d.n_alloc ∧
      d2.max_load = d.max_load ∧ d2.slots.length = d.slots.length := by
  unfold _write_probe
  rcases find_slot_spec d hash ._DELETED hlen hcap hpos with ⟨p, hp, hfs⟩ | ⟨hp, _⟩
  · obtain ⟨⟨s, hs, _⟩, _⟩ := hfs
    simp only [hp, hs]
    unfold _write_slot
    cases hst : s.state with
    | _UNUSED => exact ⟨_, rfl, rfl, rfl, by simp⟩
    | _OCCUPIED => exact ⟨_, rfl, rfl, rfl, by simp⟩
    | _DELETED =>
      simp only
      rcases find_slot_spec d hash ._UNUSED hlen hcap hpos with ⟨p2, hp2, hfs2⟩ | ⟨hp2, _⟩
      · obtain ⟨⟨s2, hs2, _⟩, _⟩ := hfs2
        simp only [hp2, hs2]
        by_cases hocc : s2.state = ._OCCUPIED
        · rw [if_pos hocc]
          exact ⟨_, rfl, rfl, rfl, by simp⟩
        · rw [if_neg hocc]
          exact ⟨_, rfl, rfl, rfl, by simp⟩
      · simp only [hp2]
        exact ⟨_, rfl, rfl, rfl, by simp⟩
  · simp only [hp]
    exact ⟨_, rfl, rfl, rfl, rfl⟩

theorem resize_fits_le (n : Nat) (h : resize_fits n 2 1) : 2 * n + 1 ≤ SIZE_MAX := by
  have := h.2.1
  omega

/-- C16: when the three overflow checks pass and the target `n × a + b` is at
most `n_alloc`, `_resize(n, a, b)` returns success and the very same
dictionary (slot array, `n`, `n_alloc`, flag), whatever the allocator would
answer; so a second call gives again the same result. -/
theorem C16_idempotent_growth (d : _dictionary_t) (n a b : Nat) (calloc_ok : Bool)
    (hfit : resize_fits n a b) (hle : n * a + b ≤ d.n_alloc) :
    _resize d n a b calloc_ok = .ok (true, d) ∧
      ∀ (r : Bool) (d2 : _dictionary_t), _resize d n a b calloc_ok = .ok (r, d2) →
        r = true ∧ d2.slots = d.slots ∧ d2.n = d.n ∧ d2.n_alloc = d.n_alloc ∧
          d2.failed = d.failed ∧ d2.max_load = d.max_load ∧
          _resize d2 n a b calloc_ok = .ok (r, d2) := by
  have h := resize_noop d n a b calloc_ok hfit hle
  refine ⟨h, fun r d2 h2 => ?_⟩
  rw [h] at h2
  cases h2
  exact ⟨rfl, rfl, rfl, rfl, rfl, rfl, h⟩

theorem C16_idempotent_growth_witness :
    resize_fits 1 2 1 ∧ 1 * 2 + 1 ≤ dict_AB.n_alloc ∧
      (_resize dict_AB 1 2 1 false = .ok (true, dict_AB) ∧
        ∀ (r : Bool) (d2 : _dictionary_t), _resize dict_AB 1 2 1 false = .ok (r, d2) →
          r = true ∧ d2.slots = dict_AB.slots ∧ d2.n = dict_AB.n ∧
            d2.n_alloc = dict_AB.n_alloc ∧ d2.failed = dict_AB.failed ∧
            d2.max_load = dict_AB.max_load ∧ _resize d2 1 2 1 false = .ok (r, d2)) :=
  ⟨⟨by decide, by decide, by decide⟩, by decide,
    C16_idempotent_growth dict_AB 1 2 1 false ⟨by decide, by decide, by decide⟩ (by decide)⟩

theorem resize_empty_grow (max_load : ℚ) (n : Nat) (hpos : 0 < n)
    (hbytes : n * sizeof_slot_t ≤ SIZE_MAX) :
    _resize { slots := [], n := 0, n_alloc := 0, max_load := max_load, failed := false }
        n 1 0 true =
      .ok (true, ⟨List.replicate n zero_slot, 0, n, max_load, false⟩) := by
  have hb2 : n * 24 ≤ SIZE_MAX := hbytes
  have h1 : n * 1 ≤ SIZE_MAX := by omega
  have h2 : n * 1 + 0 ≤ SIZE_MAX := by omega
  have h3 : (n * 1 + 0) * sizeof_slot_t ≤ SIZE_MAX := by
    rw [Nat.mul_one, Nat.add_zero]
    exact hbytes
  unfold _resize safe_mul safe_add
  simp only [h1, h2, h3, if_true]
  rw [if_neg (show ¬ (n * 1 + 0 ≤ 0) by omega), if_neg (by decide)]
  simp only [Nat.mul_one, Nat.add_zero]
  rfl

/-! ## Size invariant, no duplicates, probe contract -/

theorem stops_iff (cut : _state_t) (hash : Nat) (s : _slot_t) :
    stops cut hash s ↔ (s.state.val ≤ cut.val ∨ s.hash = hash) := by
  unfold stops
  constructor
  · intro h
    by_cases hh : s.hash = hash
    · exact Or.inr hh
    · left
      by_contra hlt
      exact h ⟨by omega, hh⟩
  · rintro (h | h) ⟨h1, h2⟩
    · omega
    · exact h2 h

/-- C23: on a slot array of `n_alloc > 0` slots, for every hash and cutoff,
`_find_slot` returns within its budget of `n_alloc` examined slots: either the
index of the first slot, in circular order from `hash mod n_alloc`, whose state
is at most the cutoff or whose hash is the target, or not-found, and not-found
exactly when no slot of the array qualifies. -/
theorem C23_probe_contract (d : _dictionary_t) (hlen : d.slots.length = d.n_alloc)
    (hcap : d.n_alloc ≤ SIZE_MAX) (hpos : 0 < d.n_alloc) (hash : Nat) (cut : _state_t) :
    ((∃ (q : Nat) (s : _slot_t), _find_slot d hash cut = .ok (some q) ∧ q < d.n_alloc ∧
          d.slots[q]? = some s ∧ (s.state.val ≤ cut.val ∨ s.hash = hash) ∧
          ∀ (j : Nat) (t : _slot_t), between d.n_alloc (hash % d.n_alloc) q j →
            d.slots[j]? = some t → ¬ (t.state.val ≤ cut.val ∨ t.hash = hash)) ∨
        _find_slot d hash cut = .ok none) ∧
      (_find_slot d hash cut = .ok none ↔
        ∀ (j : Nat) (t : _slot_t), d.slots[j]? = some t →
          ¬ (t.state.val ≤ cut.val ∨ t.hash = hash)) ∧
      _find_slot d hash cut ≠ .error .out_of_fuel := by
  rcases find_slot_spec d hash cut hlen hcap hpos with ⟨q, hq, ⟨s, hs, hstop⟩, hpre⟩ | ⟨hq, hno⟩
  · have hql : q < d.n_alloc := by
      rw [← hlen]
      exact (List.getElem?_eq_some_iff.mp hs).1
    refine ⟨Or.inl ⟨q, s, hq, hql, hs, (stops_iff cut hash s).mp hstop, ?_⟩, ?_, ?_⟩
    · intro j t hb hj hc
      rw [hlen] at hpre
      exact hpre j t hb hj ((stops_iff cut hash t).mpr hc)
    · constructor
      · intro h
        rw [hq] at h
        cases h
      · intro h
        exact absurd ((stops_iff cut hash s).mp hstop) (h q s hs)
    · rw [hq]
      intro h
      cases h
  · refine ⟨Or.inr hq, ⟨fun _ j t hj hc => hno j t hj ((stops_iff cut hash t).mpr hc),
      fun _ => hq⟩, ?_⟩
    rw [hq]
    intro h
    cases h

theorem C23_probe_contract_witness :
    dict_AB.slots.length = dict_AB.n_alloc ∧ dict_AB.n_alloc ≤ SIZE_MAX ∧ 0 < dict_AB.n_alloc ∧
      (((∃ (q : Nat) (s : _slot_t),
            _find_slot dict_AB 779317158659346945 ._UNUSED = .ok (some q) ∧
            q < dict_AB.n_alloc ∧
            dict_AB.slots[q]? = some s ∧
            (s.state.val ≤ _state_t._UNUSED.val ∨ s.hash = 779317158659346945) ∧
            ∀ (j : Nat) (t : _slot_t),
              between dict_AB.n_alloc (779317158659346945 % dict_AB.n_alloc) q j →
              dict_AB.slots[j]? = some t →
              ¬ (t.state.val ≤ _state_t._UNUSED.val ∨ t.hash = 779317158659346945)) ∨
          _find_slot dict_AB 779317158659346945 ._UNUSED = .ok none) ∧
        (_find_slot dict_AB 779317158659346945 ._UNUSED = .ok none ↔
          ∀ (j : Nat) (t : _slot_t), dict_AB.slots[j]? = some t →
            ¬ (t.state.val ≤ _state_t._UNUSED.val ∨ t.hash = 779317158659346945)) ∧
        _find_slot dict_AB 779317158659346945 ._UNUSED ≠ .error .out_of_fuel) ∧
      _find_slot dict_AB 779317158659346945 ._UNUSED = .ok (some 1) ∧
      _find_slot dict_A 5 ._DELETED = .ok none :=
  ⟨rfl, by decide, by decide,
    C23_probe_contract dict_AB rfl (by decide) (by decide) 779317158659346945 ._UNUSED,
    by decide, by decide⟩

/-! ## The hasher -/

/-- C24: the code at the failing input.  `_hash` starts from the offset basis,
makes four group steps and then one XOR-then-multiply step per character of
the string up to its terminator, every step multiplying by the prime modulo
2^64; but the value a group step XORs in is `group & (0xFF << i)`, a mask
shifted by `i` bits, not byte `i` of the group.  For group 256 the steps XOR
in 0, 256, 256, 256 (three values above 255) where the bytes of the group are
0, 1, 0, 0, and the result differs from the byte-wise hash. -/
theorem C24_group_steps_not_bytes :
    (∀ (group : Nat) (s : List Int),
        _hash (some s) group = _hash_str (_hash_group group 14695981039346656037) s ∧
        _hash none group = _hash_group group 14695981039346656037) ∧
      (∀ group h : Nat, _hash_group group h =
        fnv_step (fnv_step (fnv_step (fnv_step h (group &&& (0xFF <<< 0)))
          (group &&& (0xFF <<< 1))) (group &&& (0xFF <<< 2))) (group &&& (0xFF <<< 3))) ∧
      (∀ h x : Nat, fnv_step h x = ((h ^^^ x) * 1099511628211) % 2 ^ 64) ∧
      (∀ (h : Nat) (c : Int) (cs : List Int),
        _hash_str h [] = h ∧
        _hash_str h (c :: cs) =
          if c = 0 then h else _hash_str (fnv_step h (to_uint64 c)) cs) ∧
      (0xFF <<< 0 = 255 ∧ 0xFF <<< 1 = 510 ∧ 0xFF <<< 2 = 1020 ∧ 0xFF <<< 3 = 2040) ∧
      (256 < 2 ^ 32 ∧ 256 &&& (0xFF <<< 0) = 0 ∧ 256 &&& (0xFF <<< 1) = 256 ∧
        256 &&& (0xFF <<< 2) = 256 ∧ 256 &&& (0xFF <<< 3) = 256 ∧ ¬ (256 ≤ 255)) ∧
      (group_byte 256 0 = 0 ∧ group_byte 256 1 = 1 ∧ group_byte 256 2 = 0 ∧
        group_byte 256 3 = 0) ∧
      _hash none 256 =
        fnv_step (fnv_step (fnv_step (fnv_step 14695981039346656037 0) 256) 256) 256 ∧
      hash_group_bytewise 256 14695981039346656037 =
        fnv_step (fnv_step (fnv_step (fnv_step 14695981039346656037 0) 1) 0) 0 ∧
      _hash none 256 = 12037970598441311989 ∧
      hash_group_bytewise 256 14695981039346656037 = 4934814342159144266 ∧
      _hash none 256 ≠ hash_group_bytewise 256 14695981039346656037 := by
  refine ⟨fun group s => ⟨rfl, rfl⟩, fun group h => rfl, fun h x => rfl,
    fun h c cs => ⟨rfl, rfl⟩, ?_, ?_, ?_, ?_, ?_, ?_, ?_, ?_⟩ <;> decide

/-- C28: the code at the failing input.  The dictionary of 2^32 slots that
`create(4294967296, 1.0)` and `write("k", 0, 1)` produce is reachable, has not
failed and holds one entry; on it the 32-bit scan index wraps to 0 before it
reaches the capacity, and `cobj_dictionary_clear_group` returns within no loop
budget, whatever the group: there is no result dictionary. -/
theorem C28_clear_group_scan_wraps :
    cobj_dictionary_create (2 ^ 32) 1 true true = .ok dict_big_0 ∧
      cobj_dictionary_write dict_big_0 key_k 0 1 true = .ok dict_big ∧
      Reachable dict_big ∧ dict_big.failed = false ∧ dict_big.n = 1 ∧
      dict_big.n_alloc = 2 ^ 32 ∧ dict_big.slots.length = dict_big.n_alloc ∧
      (2 ^ 32 - 1 + 1) % 2 ^ 32 = 0 ∧
      (∀ fuel group : Nat,
        cobj_dictionary_clear_group fuel dict_big group = .error .out_of_fuel) ∧
      ∀ (fuel group : Nat) (d2 : _dictionary_t),
        cobj_dictionary_clear_group fuel dict_big group ≠ .ok d2 := by
  refine ⟨create_dict_big_0, write_dict_big, reachable_dict_big, rfl, rfl, rfl, dict_big_len,
    by decide, clear_group_dict_big, ?_⟩
  intro fuel group d2 h
  rw [clear_group_dict_big fuel group] at h
  cases h

/-! ## Growth drops the tombstones -/

theorem land_mod_2048 (g m : Nat) (hm : 2047 &&& m = m) : g &&& m = (g % 2048) &&& m := by
  have h : g % 2048 = g &&& 2047 := (Nat.and_pow_two_sub_one_eq_mod g 11).symm
  rw [h, Nat.land_assoc, hm]

theorem hash_group_mod (g h : Nat) : _hash_group g h = _hash_group (g % 2048) h := by
  have e0 := land_mod_2048 g (0xFF <<< 0) (by decide)
  have e1 := land_mod_2048 g (0xFF <<< 1) (by decide)
  have e2 := land_mod_2048 g (0xFF <<< 2) (by decide)
  have e3 := land_mod_2048 g (0xFF <<< 3) (by decide)
  show fnv_step (fnv_step (fnv_step (fnv_step h (g &&& (0xFF <<< 0))) (g &&& (0xFF <<< 1)))
      (g &&& (0xFF <<< 2))) (g &&& (0xFF <<< 3)) =
    fnv_step (fnv_step (fnv_step (fnv_step h ((g % 2048) &&& (0xFF <<< 0)))
      ((g % 2048) &&& (0xFF <<< 1))) ((g % 2048) &&& (0xFF <<< 2)))
      ((g % 2048) &&& (0xFF <<< 3))
  rw [e0, e1, e2, e3]

/-- C32: for every key string (the absent key included) and every group `g`,
`_hash(s, g) = _hash(s, g mod 2048)`: the four group steps see the group only
through the masks `0xFF << i`, `i = 0..3`, which lie below 2048; in particular
`_hash(s, 0) = _hash(s, 2048)`. -/
theorem C32_low_bits_only :
    (∀ (s : Option (List Int)) (g : Nat), _hash s g = _hash s (g % 2048)) ∧
      (∀ (g h : Nat), _hash_group g h = _hash_group (g % 2048) h) ∧
      (∀ s : Option (List Int), _hash s 0 = _hash s 2048) ∧
      (0xFF <<< 0 < 2048 ∧ 0xFF <<< 1 < 2048 ∧ 0xFF <<< 2 < 2048 ∧ 0xFF <<< 3 < 2048) ∧
      _hash key_k 0 = _hash key_k 2048 ∧ _hash key_k 2047 ≠ _hash key_k 0 := by
  have hg : ∀ (s : Option (List Int)) (g : Nat), _hash s g = _hash s (g % 2048) := by
    intro s g
    unfold _hash
    rw [hash_group_mod g]
  refine ⟨hg, hash_group_mod, fun s => (hg s 2048).symm, by decide, by decide, by decide⟩

/-! ## One-byte groups -/

theorem hash_group_lt (g h : Nat) : _hash_group g h < 2 ^ 64 :=
  Nat.mod_lt _ (by decide)

theorem mul_prime_inj (x y : Nat) (hx : x < 2 ^ 64) (hy : y < 2 ^ 64)
    (h : (x * 1099511628211) % 2 ^ 64 = (y * 1099511628211) % 2 ^ 64) : x = y := by
  have hc : Nat.gcd (2 ^ 64) 1099511628211 = 1 := by decide
  have hm : x ≡ y [MOD 2 ^ 64] := Nat.ModEq.cancel_right_of_coprime hc h
  unfold Nat.ModEq at hm
  rw [Nat.mod_eq_of_lt hx, Nat.mod_eq_of_lt hy] at hm
  exact hm

theorem to_uint64_lt (c : Int) : to_uint64 c < 2 ^ 64 := by
  unfold to_uint64
  have h1 : c % 2 ^ 64 < 2 ^ 64 := Int.emod_lt_of_pos c (by decide)
  have h0 : 0 ≤ c % 2 ^ 64 := Int.emod_nonneg c (by decide)
  omega

theorem hash_str_inj (s : List Int) :
    ∀ h1 h2 : Nat, h1 < 2 ^ 64 → h2 < 2 ^ 64 → _hash_str h1 s = _hash_str h2 s → h1 = h2 := by
  induction s with
  | nil =>
    intro h1 h2 _ _ h
    exact h
  | cons c cs ih =>
    intro h1 h2 hl1 hl2 h
    unfold _hash_str at h
    by_cases hc : c = 0
    · rw [if_pos hc, if_pos hc] at h
      exact h
    · rw [if_neg hc, if_neg hc] at h
      have hk := ih _ _ (Nat.mod_lt _ (by decide)) (Nat.mod_lt _ (by decide)) h
      have hx := mul_prime_inj _ _ (Nat.xor_lt_two_pow hl1 (to_uint64_lt c))
        (Nat.xor_lt_two_pow hl2 (to_uint64_lt c)) hk
      exact Nat.xor_left_injective hx

theorem hash_group_byte_nodup :
    ((List.range 256).map (fun g => _hash_group g 14695981039346656037)).Nodup := by
  decide!

/-- C33: for every key string, the absent key included, and every two
distinct groups below 256, the hashes differ: the 256 results of the group
steps are pairwise distinct, and every string step is one-to-one on the
64-bit accumulator. -/
theorem C33_byte_groups_distinct (s : Option (List Int)) (g1 g2 : Nat) (h1 : g1 < 256)
    (h2 : g2 < 256) (hne : g1 ≠ g2) : _hash s g1 ≠ _hash s g2 := by
  have hgrp : _hash_group g1 14695981039346656037 ≠ _hash_group g2 14695981039346656037 := by
    intro h
    apply hne
    have hinj := List.inj_on_of_nodup_map hash_group_byte_nodup
    exact hinj (List.mem_range.mpr h1) (List.mem_range.mpr h2) h
  intro h
  apply hgrp
  unfold _hash at h
  cases s with
  | none => exact h
  | some str => exact hash_str_inj str _ _ (hash_group_lt _ _) (hash_group_lt _ _) h

theorem C33_byte_groups_distinct_witness :
    (0 : Nat) < 256 ∧ (255 : Nat) < 256 ∧ (0 : Nat) ≠ 255 ∧ _hash key_A 0 ≠ _hash key_A 255 ∧
      _hash key_A 0 = 779313860124462312 :=
  ⟨by decide, by decide, by decide,
    C33_byte_groups_distinct key_A 0 255 (by decide) (by decide) (by decide), by decide⟩

/-! ## The load factor of an empty array -/

/-- C34: the code at the failing input.  `cobj_dictionary_create(0, 0.6)`
returns a dictionary that is reachable, has not failed and has `n_alloc = 0`
and `n = 0`; on it `cobj_dictionary_get_load_factor` passes the test of the
failed flag and divides 0 by 0.  The same holds after `clear`, after
`clear_group` and after an `erase`. -/
theorem C34_load_factor_zero_capacity :
    cobj_dictionary_create 0 (3 / 5) true true = .ok dict_0 ∧ Reachable dict_0 ∧
      dict_0.failed = false ∧ cobj_dictionary_has_failed dict_0 = false ∧
      dict_0.n = 0 ∧ dict_0.n_alloc = 0 ∧ cobj_dictionary_get_alloc_size dict_0 = 0 ∧
      cobj_dictionary_get_load_factor dict_0 = .error .div_by_zero ∧
      cobj_dictionary_clear dict_0 = .ok dict_0 ∧
      cobj_dictionary_clear_group 1 dict_0 0 = .ok dict_0 ∧
      cobj_dictionary_erase dict_0 key_A 0 = .ok dict_0 ∧
      cobj_dictionary_get_load_factor dict_A = .ok 1 := by
  refine ⟨?_, reachable_dict_0, rfl, rfl, rfl, rfl, ?_, ?_, ?_, ?_, ?_, ?_⟩ <;> decide!

/-! ## The tracker: find -/

theorem scan_down_spec (t : du_tracker_t) (p : Nat) :
    ∀ i : Nat, i < t.ptr.length → i < SIZE_MAX →
      (∃ j : Nat, _scan_down t p i = .ok (some j) ∧ j ≤ i ∧ t.ptr[j]? = some p) ∨
        (_scan_down t p i = .ok none ∧ ∀ k : Nat, k ≤ i → t.ptr[k]? ≠ some p) := by
  intro i
  induction i with
  | zero =>
    intro hl hm
    obtain ⟨x, hx⟩ : ∃ x, t.ptr[0]? = some x := ⟨t.ptr[0], List.getElem?_eq_getElem hl⟩
    unfold _scan_down
    rw [if_pos hm]
    simp only [hx]
    by_cases hxp : x = p
    · left
      rw [if_pos hxp]
      exact ⟨0, rfl, le_refl _, by rw [hx, hxp]⟩
    · right
      rw [if_neg hxp]
      refine ⟨rfl, fun k hk => ?_⟩
      have hk0 : k = 0 := by omega
      rw [hk0, hx]
      intro h
      cases h
      exact hxp rfl
  | succ i ih =>
    intro hl hm
    obtain ⟨x, hx⟩ : ∃ x, t.ptr[i + 1]? = some x := ⟨t.ptr[i + 1], List.getElem?_eq_getElem hl⟩
    unfold _scan_down
    rw [if_pos hm]
    simp only [hx]
    by_cases hxp : x = p
    · left
      rw [if_pos hxp]
      exact ⟨i + 1, rfl, le_refl _, by rw [hx, hxp]⟩
    · rw [if_neg hxp]
      rcases ih (by omega) (by omega) with ⟨j, h1, h2, h3⟩ | ⟨h1, h2⟩
      · exact Or.inl ⟨j, h1, by omega, h3⟩
      · right
        refine ⟨h1, fun k hk => ?_⟩
        by_cases hki : k ≤ i
        · exact h2 k hki
        · have hk1 : k = i + 1 := by omega
          rw [hk1, hx]
          intro h
          cases h
          exact hxp rfl

theorem scan_down_max (t : du_tracker_t) (p i : Nat) (h : ¬ i < SIZE_MAX) :
    _scan_down t p i = .ok none := by
  cases i with
  | zero => exact absurd (by decide) h
  | succ i =>
    unfold _scan_down
    rw [if_neg h]

theorem scan_up_spec (t : du_tracker_t) (p : Nat) (hn : t.n ≤ t.ptr.length)
    (hmax : t.n < 2 ^ 64) :
    ∀ fuel i : Nat, t.n - i < fuel →
      (∃ j : Nat, _scan_up t p fuel i = .ok (some j) ∧ i ≤ j ∧ j < t.n ∧ t.ptr[j]? = some p) ∨
        (_scan_up t p fuel i = .ok none ∧
          ∀ k : Nat, i ≤ k → k < t.n → t.ptr[k]? ≠ some p) := by
  intro fuel
  induction fuel with
  | zero =>
    intro i h
    omega
  | succ fuel ih =>
    intro i hf
    unfold _scan_up
    by_cases hi : i < t.n
    · rw [if_pos hi]
      obtain ⟨x, hx⟩ : ∃ x, t.ptr[i]? = some x :=
        ⟨t.ptr[i], List.getElem?_eq_getElem (by omega)⟩
      simp only [hx]
      by_cases hxp : x = p
      · left
        rw [if_pos hxp]
        exact ⟨i, rfl, le_refl _, hi, by rw [hx, hxp]⟩
      · rw [if_neg hxp]
        have hmod : (i + 1) % 2 ^ 64 = i + 1 := Nat.mod_eq_of_lt (by omega)
        rw [hmod]
        rcases ih (i + 1) (by omega) with ⟨j, h1, h2, h3, h4⟩ | ⟨h1, h2⟩
        · exact Or.inl ⟨j, h1, by omega, h3, h4⟩
        · right
          refine ⟨h1, fun k hk hkn => ?_⟩
          by_cases hki : k = i
          · rw [hki, hx]
            intro h
            cases h
            exact hxp rfl
          · exact h2 k (by omega) hkn
    · right
      rw [if_neg hi]
      exact ⟨rfl, fun k hk hkn => by omega⟩

theorem mem_entries_iff (t : du_tracker_t) (p : Nat) :
    p ∈ entries t ↔ ∃ j : Nat, j < t.n ∧ t.ptr[j]? = some p := by
  unfold entries
  rw [List.mem_iff_getElem?]
  constructor
  · rintro ⟨j, hj⟩
    rw [List.getElem?_take] at hj
    by_cases hjn : j < t.n
    · rw [if_pos hjn] at hj
      exact ⟨j, hjn, hj⟩
    · rw [if_neg hjn] at hj
      cases hj
  · rintro ⟨j, hjn, hj⟩
    refine ⟨j, ?_⟩
    rw [List.getElem?_take, if_pos hjn]
    exact hj

theorem status_test_success (t : du_tracker_t) (hs : t.status = .DU_STATUS_SUCCESS) :
    ¬ (du_status_test t.status = true) := by
  rw [hs]
  decide

theorem wf_lt (t : du_tracker_t) (hwf : tracker_wf t) : t.n < SIZE_MAX := by
  obtain ⟨h1, h2⟩ := hwf
  have h3 : t.ptr.length * 8 ≤ 2 ^ 64 - 1 := h2
  have h4 : SIZE_MAX = 2 ^ 64 - 1 := rfl
  omega

theorem find_spec (t : du_tracker_t) (hwf : tracker_wf t) (hs : t.status = .DU_STATUS_SUCCESS)
    (p : Nat) (index : Option Nat) :
    ∃ (r : Bool) (idx : Option Nat), du_tracker_find t p index = .ok (r, idx) ∧
      (r = true ↔ p ∈ entries t) ∧
      (r = true → (index = none → idx = none) ∧
        ∀ v : Nat, index = some v → ∃ j : Nat, idx = some j ∧ j < t.n ∧ t.ptr[j]? = some p) ∧
      (r = false → idx = index) := by
  have hlt := wf_lt t hwf
  have hsm : SIZE_MAX = 2 ^ 64 - 1 := rfl
  have hfound : ∀ j : Nat, j < t.n → t.ptr[j]? = some p →
      ∃ (r : Bool) (idx : Option Nat),
        Except.ok (ε := Fault) (true, index.map (fun _ => j)) = .ok (r, idx) ∧
        (r = true ↔ p ∈ entries t) ∧
        (r = true → (index = none → idx = none) ∧
          ∀ v : Nat, index = some v → ∃ j : Nat, idx = some j ∧ j < t.n ∧
            t.ptr[j]? = some p) ∧
        (r = false → idx = index) := by
    intro j hj hp
    refine ⟨true, _, rfl, ⟨fun _ => (mem_entries_iff t p).mpr ⟨j, hj, hp⟩, fun _ => rfl⟩,
      fun _ => ⟨fun h => by rw [h]; rfl, fun v hv => ⟨j, by rw [hv]; rfl, hj, hp⟩⟩,
      fun h => Bool.noConfusion h⟩
  have hmiss : (∀ k : Nat, k < t.n → t.ptr[k]? ≠ some p) →
      ∃ (r : Bool) (idx : Option Nat),
        Except.ok (ε := Fault) (false, index) = .ok (r, idx) ∧
        (r = true ↔ p ∈ entries t) ∧
        (r = true → (index = none → idx = none) ∧
          ∀ v : Nat, index = some v → ∃ j : Nat, idx = some j ∧ j < t.n ∧
            t.ptr[j]? = some p) ∧
        (r = false → idx = index) := by
    intro hno
    refine ⟨false, index, rfl, ⟨fun h => Bool.noConfusion h, fun h => ?_⟩,
      fun h => Bool.noConfusion h, fun _ => rfl⟩
    obtain ⟨j, hj, hp⟩ := (mem_entries_iff t p).mp h
    exact absurd hp (hno j hj)
  unfold du_tracker_find
  rw [if_neg (status_test_success t hs)]
  generalize hi0 : (match index with
      | some v => if v < t.n then v else size_dec t.n
      | none => size_dec t.n) = i0
  dsimp only
  by_cases hn0 : t.n = 0
  · have hi : i0 = SIZE_MAX := by
      rw [← hi0]
      cases index with
      | none =>
        dsimp only
        rw [hn0]
        rfl
      | some v =>
        dsimp only
        rw [hn0, if_neg (by omega)]
        rfl
    rw [hi, scan_down_max t p SIZE_MAX (lt_irrefl _)]
    dsimp only
    have hz : (SIZE_MAX + 1) % 2 ^ 64 = 0 := by decide
    rw [hz]
    unfold _scan_up
    rw [if_neg (by omega)]
    dsimp only
    exact hmiss (fun k hk => by omega)
  · have hi : i0 < t.n := by
      rw [← hi0]
      have hd : size_dec t.n < t.n := by
        unfold size_dec
        have : (t.n + 2 ^ 64 - 1) % 2 ^ 64 = t.n - 1 := by omega
        omega
      cases index with
      | none => exact hd
      | some v =>
        dsimp only
        by_cases hv : v < t.n
        · rw [if_pos hv]
          exact hv
        · rw [if_neg hv]
          exact hd
    rcases scan_down_spec t p i0 (by have := hwf.1; omega) (by omega) with
      ⟨j, h1, h2, h3⟩ | ⟨h1, h2⟩
    · rw [h1]
      dsimp only
      exact hfound j (by omega) h3
    · rw [h1]
      dsimp only
      have hmod : (i0 + 1) % 2 ^ 64 = i0 + 1 := Nat.mod_eq_of_lt (by omega)
      rw [hmod]
      rcases scan_up_spec t p hwf.1 (by omega) (t.n + 1) (i0 + 1) (by omega) with
        ⟨j, k1, k2, k3, k4⟩ | ⟨k1, k2⟩
      · rw [k1]
        dsimp only
        exact hfound j k3 k4
      · rw [k1]
        dsimp only
        apply hmiss
        intro k hk
        by_cases hki : k ≤ i0
        · exact h2 k hki
        · exact k2 k (by omega) hk

/-! ## The tracker: removal by index -/

theorem pull_loop_spec :
    ∀ (fuel index : Nat) (t : du_tracker_t), t.n - index < fuel →
      t.n + 1 ≤ t.ptr.length → t.ptr.length < 2 ^ 64 →
      ∃ t2, _pull_loop fuel index t = .ok t2 ∧ t2.n = t.n ∧ t2.n_alloc = t.n_alloc ∧
        t2.status = t.status ∧ t2.ptr.length = t.ptr.length ∧
        ∀ j : Nat, t2.ptr[j]? = if index ≤ j ∧ j < t.n then t.ptr[j + 1]? else t.ptr[j]? := by
  intro fuel
  induction fuel with
  | zero =>
    intro index t h
    omega
  | succ fuel ih =>
    intro index t hf hl hmax
    unfold _pull_loop
    by_cases hi : index < t.n
    · rw [if_pos hi]
      have hmod : (index + 1) % 2 ^ 64 = index + 1 := Nat.mod_eq_of_lt (by omega)
      rw [hmod]
      obtain ⟨x, hx⟩ : ∃ x, t.ptr[index + 1]? = some x :=
        ⟨t.ptr[index + 1], List.getElem?_eq_getElem (by omega)⟩
      simp only [hx]
      have hil : index < t.ptr.length := by omega
      rw [if_pos hil]
      obtain ⟨t2, h1, h2, h3, h4, h5, h6⟩ :=
        ih (index + 1) { t with ptr := t.ptr.set index x } (by dsimp only; omega)
          (by simpa using hl) (by simpa using hmax)
      refine ⟨t2, h1, h2, h3, h4, by rw [h5]; simp, ?_⟩
      intro j
      rw [h6 j]
      dsimp only
      by_cases hj : index + 1 ≤ j ∧ j < t.n
      · rw [if_pos hj, if_pos ⟨by omega, hj.2⟩, List.getElem?_set, if_neg (by omega)]
      · rw [if_neg hj, List.getElem?_set]
        by_cases hji : index = j
        · rw [if_pos hji, if_pos hil, if_pos ⟨by omega, by omega⟩, ← hji, hx]
        · rw [if_neg hji, if_neg (by omega)]
    · rw [if_neg hi]
      refine ⟨t, rfl, rfl, rfl, rfl, rfl, fun j => ?_⟩
      rw [if_neg (by omega)]

theorem pull_index_spec (t : du_tracker_t) (hwf : tracker_wf t)
    (hs : t.status = .DU_STATUS_SUCCESS) (index : Nat) :
    ∃ t2, du_tracker_pull_index t index = .ok t2 ∧ t2.n_alloc = t.n_alloc ∧
      t2.status = t.status ∧ t2.ptr.length = t.ptr.length ∧
      (index < t.n → t2.n + 1 = t.n ∧ entries t2 = (entries t).eraseIdx index) ∧
      (t.n ≤ index → t2 = t) := by
  have hlt := wf_lt t hwf
  have hsm : SIZE_MAX = 2 ^ 64 - 1 := rfl
  obtain ⟨hn, hb⟩ := hwf
  have hb8 : t.ptr.length * 8 ≤ SIZE_MAX := hb
  unfold du_tracker_pull_index
  rw [if_neg (status_test_success t hs)]
  by_cases hi : index < t.n
  · rw [if_pos hi]
    have hd : size_dec t.n = t.n - 1 := by
      unfold size_dec
      omega
    rw [hd]
    obtain ⟨t2, h1, h2, h3, h4, h5, h6⟩ :=
      pull_loop_spec (t.n - 1 + 1) index { t with n := t.n - 1 } (by dsimp only; omega)
        (by dsimp only; omega) (by dsimp only; omega)
    dsimp only at h2 h3 h4 h5 h6
    refine ⟨t2, h1, h3, h4, h5, fun _ => ⟨by omega, ?_⟩, fun h => by omega⟩
    unfold entries
    apply List.ext_getElem?
    intro j
    rw [List.getElem?_take, List.getElem?_eraseIdx, List.getElem?_take, List.getElem?_take,
      h6 j, h2]
    by_cases hjn : j < t.n - 1
    · rw [if_pos hjn]
      by_cases hji : j < index
      · rw [if_pos hji, if_neg (by omega), if_pos (by omega)]
      · rw [if_neg hji, if_pos ⟨by omega, hjn⟩, if_pos (by omega)]
    · rw [if_neg hjn]
      by_cases hji : j < index
      · omega
      · rw [if_neg hji, if_neg (by omega)]
  · rw [if_neg hi]
    unfold _pull_loop
    rw [if_neg hi]
    exact ⟨t, rfl, rfl, rfl, rfl, fun h => absurd h hi, fun _ => rfl⟩

/-- C36: for a tracker whose status is `DU_STATUS_SUCCESS` and whose array
holds its `n` entries (the empty tracker included), for every pointer and
every `index` argument (null, or pointing to any value, in range or not),
`du_tracker_find` returns; it returns true exactly when the pointer is among
the first `n` entries, so the answer is the same for every `index` argument;
when it returns true and `index` is given, `*index` is a position below `n`
that holds the pointer; when it returns false `*index` is what it was. -/
theorem C36_find_any_hint (t : du_tracker_t) (hwf : tracker_wf t)
    (hs : t.status = .DU_STATUS_SUCCESS) (p : Nat) (index : Option Nat) :
    ∃ (r : Bool) (idx : Option Nat), du_tracker_find t p index = .ok (r, idx) ∧
      (r = true ↔ p ∈ entries t) ∧
      (r = true → (index = none → idx = none) ∧
        ∀ v : Nat, index = some v → ∃ j : Nat, idx = some j ∧ j < t.n ∧ t.ptr[j]? = some p) ∧
      (r = false → idx = index) ∧
      ∀ (index2 : Option Nat) (r2 : Bool) (idx2 : Option Nat),
        du_tracker_find t p index2 = .ok (r2, idx2) → r2 = r := by
  obtain ⟨r, idx, h1, h2, h3, h4⟩ := find_spec t hwf hs p index
  refine ⟨r, idx, h1, h2, h3, h4, ?_⟩
  intro index2 r2 idx2 hf
  obtain ⟨r3, idx3, k1, k2, _⟩ := find_spec t hwf hs p index2
  rw [hf] at k1
  cases k1
  cases r <;> cases r2 <;> simp_all

theorem C36_find_any_hint_witness :
    tracker_wf tracker_3 ∧ tracker_3.status = .DU_STATUS_SUCCESS ∧
      (∃ (r : Bool) (idx : Option Nat), du_tracker_find tracker_3 200 (some 77) = .ok (r, idx) ∧
        (r = true ↔ 200 ∈ entries tracker_3) ∧
        (r = true → ((some 77 : Option Nat) = none → idx = none) ∧
          ∀ v : Nat, (some 77 : Option Nat) = some v →
            ∃ j : Nat, idx = some j ∧ j < tracker_3.n ∧ tracker_3.ptr[j]? = some 200) ∧
        (r = false → idx = some 77) ∧
        ∀ (index2 : Option Nat) (r2 : Bool) (idx2 : Option Nat),
          du_tracker_find tracker_3 200 index2 = .ok (r2, idx2) → r2 = r) ∧
      du_tracker_find tracker_3 200 (some 77) = .ok (true, some 1) ∧
      du_tracker_find tracker_3 200 (some 2) = .ok (true, some 1) ∧
      du_tracker_find tracker_3 200 none = .ok (true, none) ∧
      du_tracker_find tracker_3 0 (some 7) = .ok (false, some 7) ∧
      du_tracker_find (du_tracker_init 0 true) 200 (some 7) = .ok (false, some 7) :=
  ⟨⟨by decide, by decide⟩, rfl,
    C36_find_any_hint tracker_3 ⟨by decide, by decide⟩ rfl 200 (some 77),
    by decide, by decide, by decide, by decide, by decide⟩

/-- C37: for a tracker whose status is `DU_STATUS_SUCCESS` and whose array
holds its `n` entries, `du_tracker_pull_index` returns, also when the array has
no cell beyond the `n` entries, so nothing past the old length is read;
`n_alloc` is unchanged; with `index < n` the new `n` is one less and the
entries are the old ones with the entry at `index` removed, in the same order;
with `index ≥ n` the tracker is unchanged. -/
theorem C37_pull_index (t : du_tracker_t) (hwf : tracker_wf t)
    (hs : t.status = .DU_STATUS_SUCCESS) (index : Nat) :
    (∃ t2, du_tracker_pull_index t index = .ok t2 ∧ t2.n_alloc = t.n_alloc ∧
        (index < t.n → t2.n + 1 = t.n ∧ entries t2 = (entries t).eraseIdx index ∧
          (∀ j : Nat, j < index → t2.ptr[j]? = t.ptr[j]?) ∧
          (∀ j : Nat, index ≤ j → j < t2.n → t2.ptr[j]? = t.ptr[j + 1]?)) ∧
        (t.n ≤ index → t2 = t)) ∧
      ∃ t3, du_tracker_pull_index { t with ptr := t.ptr.take t.n } index = .ok t3 ∧
        t3.n_alloc = t.n_alloc ∧ (index < t.n → entries t3 = (entries t).eraseIdx index) := by
  constructor
  · obtain ⟨t2, h1, h2, _, _, h5, h6⟩ := pull_index_spec t hwf hs index
    refine ⟨t2, h1, h2, fun hi => ?_, h6⟩
    obtain ⟨k1, k2⟩ := h5 hi
    have hget : ∀ j : Nat, j < t2.n → t2.ptr[j]? = ((entries t).eraseIdx index)[j]? := by
      intro j hj
      rw [← k2]
      unfold entries
      rw [List.getElem?_take, if_pos hj]
    refine ⟨k1, k2, fun j hj => ?_, fun j hj hjn => ?_⟩
    · rw [hget j (by omega), List.getElem?_eraseIdx, if_pos hj]
      unfold entries
      rw [List.getElem?_take, if_pos (by omega)]
    · rw [hget j hjn, List.getElem?_eraseIdx, if_neg (by omega)]
      unfold entries
      rw [List.getElem?_take, if_pos (by omega)]
  · have hwf2 : tracker_wf { t with ptr := t.ptr.take t.n } := by
      obtain ⟨a, b⟩ := hwf
      have hlen : (t.ptr.take t.n).length = t.n := by
        rw [List.length_take]
        omega
      refine ⟨by dsimp only; omega, ?_⟩
      dsimp only
      rw [hlen]
      exact le_trans (Nat.mul_le_mul_right _ a) b
    obtain ⟨t3, h1, h2, _, _, h5, _⟩ := pull_index_spec _ hwf2 hs index
    refine ⟨t3, h1, h2, fun hi => ?_⟩
    rw [(h5 hi).2]
    unfold entries
    dsimp only
    rw [List.take_take, min_self]

theorem C37_pull_index_witness :
    tracker_wf tracker_3 ∧ tracker_3.status = .DU_STATUS_SUCCESS ∧
      ((∃ t2, du_tracker_pull_index tracker_3 0 = .ok t2 ∧ t2.n_alloc = tracker_3.n_alloc ∧
          (0 < tracker_3.n → t2.n + 1 = tracker_3.n ∧
            entries t2 = (entries tracker_3).eraseIdx 0 ∧
            (∀ j : Nat, j < 0 → t2.ptr[j]? = tracker_3.ptr[j]?) ∧
            (∀ j : Nat, 0 ≤ j → j < t2.n → t2.ptr[j]? = tracker_3.ptr[j + 1]?)) ∧
          (tracker_3.n ≤ 0 → t2 = tracker_3)) ∧
        ∃ t3, du_tracker_pull_index
            { tracker_3 with ptr := tracker_3.ptr.take tracker_3.n } 0 = .ok t3 ∧
          t3.n_alloc = tracker_3.n_alloc ∧
          (0 < tracker_3.n → entries t3 = (entries tracker_3).eraseIdx 0)) ∧
      du_tracker_pull_index tracker_3 0 = .ok tracker_3_pulled ∧
      entries tracker_3 = [100, 200, 300] ∧ entries tracker_3_pulled = [200, 300] ∧
      du_tracker_pull_index tracker_3 3 = .ok tracker_3 :=
  ⟨⟨by decide, by decide⟩, rfl, C37_pull_index tracker_3 ⟨by decide, by decide⟩ rfl 0,
    by decide, by decide, by decide, by decide⟩

/-! ## The tracker: push and the invariant -/

theorem alloc_cells_bytes (k : Nat) : alloc_cells k * sizeof_ptr ≤ SIZE_MAX := by
  unfold alloc_cells sizeof_ptr SIZE_MAX
  omega

theorem realloc_cells_length (old : List Nat) (k : Nat) : (realloc_cells old k).length = k := by
  unfold realloc_cells
  rw [List.length_take, List.length_append, List.length_replicate]
  omega

theorem realloc_cells_take (old : List Nat) (k n : Nat) (hn : n ≤ old.length) (hk : n ≤ k) :
    (realloc_cells old k).take n = old.take n := by
  unfold realloc_cells
  rw [List.take_take, min_eq_left hk, List.take_append_of_le_length hn]

theorem push_store_spec (t : du_tracker_t) (p : Nat) (index : Option Nat) (t2 : du_tracker_t)
    (idx : Option Nat) (hmax : t.ptr.length * sizeof_ptr ≤ SIZE_MAX)
    (h : _push_store t p index = .ok (t2, idx)) :
    t.n < t.ptr.length ∧ t2.n = t.n + 1 ∧ entries t2 = entries t ++ [p] ∧
      t2.ptr.length = t.ptr.length ∧ t2.n_alloc = t.n_alloc ∧ t2.status = t.status := by
  unfold _push_store at h
  by_cases hl : t.n < t.ptr.length
  · rw [if_pos hl] at h
    cases h
    have h8 : t.ptr.length * 8 ≤ 2 ^ 64 - 1 := hmax
    have hinc : size_inc t.n = t.n + 1 := by
      unfold size_inc
      omega
    refine ⟨hl, hinc, ?_, by simp, rfl, rfl⟩
    unfold entries
    dsimp only
    rw [hinc]
    apply List.ext_getElem?
    intro j
    rw [List.getElem?_take, List.getElem?_set, List.getElem?_append, List.length_take,
      List.getElem?_take, min_eq_left (le_of_lt hl)]
    by_cases hj : j < t.n
    · rw [if_pos (by omega), if_neg (by omega), if_pos hj, if_pos hj]
    · rw [if_neg hj]
      by_cases hjn : j = t.n
      · rw [if_pos (by omega), if_pos hjn.symm, if_pos hl, hjn]
        simp
      · rw [if_neg (by omega)]
        have : j - t.n ≠ 0 := by omega
        cases hd : j - t.n with
        | zero => exact absurd hd this
        | succ m => rfl
  · rw [if_neg hl] at h
    cases h

theorem init_inv (n_alloc : Nat) (malloc_ok : Bool) :
    tracker_wf (du_tracker_init n_alloc malloc_ok) ∧
      (du_tracker_init n_alloc malloc_ok).n ≤ (du_tracker_init n_alloc malloc_ok).n_alloc ∧
      (entries (du_tracker_init n_alloc malloc_ok)).Nodup := by
  refine ⟨⟨Nat.zero_le _, ?_⟩, Nat.zero_le _, ?_⟩
  · unfold du_tracker_init
    dsimp only
    split_ifs
    · rw [List.length_replicate]
      exact alloc_cells_bytes n_alloc
    · simp
  · unfold entries du_tracker_init
    simp

theorem push_inv (t : du_tracker_t) (hwf : tracker_wf t) (hle : t.n ≤ t.n_alloc)
    (hnd : (entries t).Nodup) (p : Nat) (index : Option Nat) (realloc_ok : Bool)
    (t2 : du_tracker_t) (idx : Option Nat)
    (h : du_tracker_push t p index realloc_ok = .ok (t2, idx)) :
    tracker_wf t2 ∧ t2.n ≤ t2.n_alloc ∧ (entries t2).Nodup := by
  have hlt := wf_lt t hwf
  have hsm : SIZE_MAX = 2 ^ 64 - 1 := rfl
  unfold du_tracker_push at h
  by_cases hs : du_status_test t.status = true
  · rw [if_pos hs] at h
    cases h
    exact ⟨hwf, hle, hnd⟩
  · rw [if_neg hs] at h
    have hss : t.status = .DU_STATUS_SUCCESS := by
      cases hst : t.status
      · rfl
      · rw [hst] at hs
        exact absurd (by decide) hs
      · rw [hst] at hs
        exact absurd (by decide) hs
    obtain ⟨r, i2, k1, k2, _, _⟩ := find_spec t hwf hss p index
    rw [k1] at h
    cases r with
    | true =>
      dsimp only at h
      cases h
      exact ⟨hwf, hle, hnd⟩
    | false =>
      dsimp only at h
      have hnot : p ∉ entries t := fun hm => Bool.noConfusion (k2.mpr hm)
      have hfin : ∀ te : du_tracker_t, te.ptr.length * sizeof_ptr ≤ SIZE_MAX →
          entries te = entries t → te.n = t.n → te.n + 1 ≤ te.n_alloc →
          _push_store te p i2 = .ok (t2, idx) →
          tracker_wf t2 ∧ t2.n ≤ t2.n_alloc ∧ (entries t2).Nodup := by
        intro te hb he hn hna hst
        obtain ⟨j1, j2, j3, j4, j5, _⟩ := push_store_spec te p i2 t2 idx hb hst
        refine ⟨⟨by omega, by rw [j4]; exact hb⟩, by omega, ?_⟩
        rw [j3, he, List.nodup_append]
        refine ⟨hnd, List.nodup_singleton p, ?_⟩
        intro x hx hx2
        rw [List.mem_singleton] at hx2
        rw [hx2] at hx
        exact hnot hx
      by_cases hge : t.n ≥ t.n_alloc
      · rw [if_pos hge] at h
        have hna : (if t.n_alloc > 0 then (t.n_alloc * 2) % 2 ^ 64 else 1) ≥ t.n + 1 := by
          have h8 : t.ptr.length * 8 ≤ 2 ^ 64 - 1 := hwf.2
          have := hwf.1
          split_ifs <;> omega
        unfold _extend du_status_assert at h
        cases realloc_ok with
        | false =>
          simp only [Bool.false_eq_true, if_false] at h
          cases h
          exact ⟨hwf, by dsimp only; omega, hnd⟩
        | true =>
          simp only [if_true] at h
          have hst := h
          obtain ⟨j1, _⟩ := push_store_spec _ p i2 t2 idx
            (by dsimp only; rw [realloc_cells_length]; exact alloc_cells_bytes _) hst
          dsimp only at j1
          rw [realloc_cells_length] at j1
          apply hfin _ _ _ _ _ h
          · dsimp only
            rw [realloc_cells_length]
            exact alloc_cells_bytes _
          · unfold entries
            dsimp only
            exact realloc_cells_take t.ptr _ t.n hwf.1 (le_of_lt j1)
          · rfl
          · dsimp only
            omega
      · rw [if_neg hge] at h
        exact hfin t hwf.2 rfl rfl (by omega) h

theorem pull_index_inv (t : du_tracker_t) (hwf : tracker_wf t) (hle : t.n ≤ t.n_alloc)
    (hnd : (entries t).Nodup) (index : Nat) (t2 : du_tracker_t)
    (h : du_tracker_pull_index t index = .ok t2) :
    tracker_wf t2 ∧ t2.n ≤ t2.n_alloc ∧ (entries t2).Nodup := by
  by_cases hs : du_status_test t.status = true
  · unfold du_tracker_pull_index at h
    rw [if_pos hs] at h
    cases h
    exact ⟨hwf, hle, hnd⟩
  · have hss : t.status = .DU_STATUS_SUCCESS := by
      cases hst : t.status
      · rfl
      · rw [hst] at hs
        exact absurd (by decide) hs
      · rw [hst] at hs
        exact absurd (by decide) hs
    obtain ⟨t3, k1, k2, _, k4, k5, k6⟩ := pull_index_spec t hwf hss index
    rw [h] at k1
    cases k1
    by_cases hi : index < t.n
    · obtain ⟨j1, j2⟩ := k5 hi
      refine ⟨⟨by have := hwf.1; omega, by rw [k4]; exact hwf.2⟩, by omega, ?_⟩
      rw [j2]
      exact List.Nodup.sublist (List.eraseIdx_sublist _ _) hnd
    · rw [k6 (by omega)]
      exact ⟨hwf, hle, hnd⟩

theorem pull_pointer_inv (t : du_tracker_t) (hwf : tracker_wf t) (hle : t.n ≤ t.n_alloc)
    (hnd : (entries t).Nodup) (p : Nat) (t2 : du_tracker_t)
    (h : du_tracker_pull_pointer t p = .ok t2) :
    tracker_wf t2 ∧ t2.n ≤ t2.n_alloc ∧ (entries t2).Nodup := by
  unfold du_tracker_pull_pointer at h
  by_cases hs : du_status_test t.status = true
  · rw [if_pos hs] at h
    cases h
    exact ⟨hwf, hle, hnd⟩
  · rw [if_neg hs] at h
    have hss : t.status = .DU_STATUS_SUCCESS := by
      cases hst : t.status
      · rfl
      · rw [hst] at hs
        exact absurd (by decide) hs
      · rw [hst] at hs
        exact absurd (by decide) hs
    obtain ⟨r, i2, k1, _⟩ := find_spec t hwf hss p (some 0)
    rw [k1] at h
    cases r with
    | true => exact pull_index_inv t hwf hle hnd _ t2 h
    | false =>
      dsimp only at h
      cases h
      exact ⟨hwf, hle, hnd⟩

theorem tracker_reachable_inv (t : du_tracker_t) (hr : TrackerReachable t) :
    tracker_wf t ∧ t.n ≤ t.n_alloc ∧ (entries t).Nodup := by
  induction hr with
  | init n_alloc malloc_ok _ => exact init_inv n_alloc malloc_ok
  | push t p index realloc_ok t2 index2 _ h ih =>
    exact push_inv t ih.1 ih.2.1 ih.2.2 p index realloc_ok t2 index2 h
  | pull_index t index t2 _ h ih => exact pull_index_inv t ih.1 ih.2.1 ih.2.2 index t2 h
  | pull_pointer t p t2 _ h ih => exact pull_pointer_inv t ih.1 ih.2.1 ih.2.2 p t2 h

theorem reachable_tracker_3 : TrackerReachable tracker_3 :=
  TrackerReachable.push ⟨[100, 200], 2, 2, .DU_STATUS_SUCCESS⟩ 300 none true tracker_3 none
    (TrackerReachable.push ⟨[100, 0], 1, 2, .DU_STATUS_SUCCESS⟩ 200 none true
      ⟨[100, 200], 2, 2, .DU_STATUS_SUCCESS⟩ none
      (TrackerReachable.push (du_tracker_init 2 true) 100 none true
        ⟨[100, 0], 1, 2, .DU_STATUS_SUCCESS⟩ none
        (TrackerReachable.init 2 true (by decide)) (by decide))
      (by decide))
    (by decide)

theorem reachable_tracker_failed : TrackerReachable tracker_failed :=
  TrackerReachable.push ⟨[100], 1, 1, .DU_STATUS_SUCCESS⟩ 200 none false tracker_failed none
    (TrackerReachable.push (du_tracker_init 0 true) 100 none true
      ⟨[100], 1, 1, .DU_STATUS_SUCCESS⟩ none
      (TrackerReachable.init 0 true (by decide)) (by decide))
    (by decide)

/-- C35 as stated fails in its parenthesis.  After `du_tracker_init(0)`, a
push of the pointer 100 and a push of 200 during which `realloc` fails, the
status is `DU_STATUS_FAILURE` and 100 is the entry at position 0; a further
push of 100 with `*index = 9` returns the tracker as it is and leaves 9 in
`*index`, which is not a position of the pointer. -/
theorem C35_failed_tracker_silent :
    du_tracker_push (du_tracker_init 0 true) 100 none true =
        .ok (⟨[100], 1, 1, .DU_STATUS_SUCCESS⟩, none) ∧
      du_tracker_push ⟨[100], 1, 1, .DU_STATUS_SUCCESS⟩ 200 none false =
        .ok (tracker_failed, none) ∧
      TrackerReachable tracker_failed ∧ tracker_failed.status = .DU_STATUS_FAILURE ∧
      100 ∈ entries tracker_failed ∧ tracker_failed.ptr[0]? = some 100 ∧
      du_tracker_push tracker_failed 100 (some 9) true = .ok (tracker_failed, some 9) ∧
      tracker_failed.ptr[9]? = none ∧ ¬ (9 < tracker_failed.n) := by
  refine ⟨?_, ?_, reachable_tracker_failed, rfl, ?_, rfl, ?_, rfl, ?_⟩ <;> decide

/-- C35, amended: in every tracker reachable from `du_tracker_init` by `push`,
`pull_index` and `pull_pointer`, no pointer occurs twice among the first `n`
entries and `n ≤ n_alloc` (and the array holds the `n` entries); and
`du_tracker_push` of a pointer that is among the first `n` entries returns the
tracker as it was, array, `n`, `n_alloc` and status, and, when the status is
`DU_STATUS_SUCCESS` and `index` is given, `*index` is a position below `n` that
holds the pointer. -/
theorem C35_tracker_unique (t : du_tracker_t) (hr : TrackerReachable t) :
    (entries t).Nodup ∧ t.n ≤ t.n_alloc ∧ t.n ≤ t.ptr.length ∧
      (∀ i j : Nat, i < t.n → j < t.n → t.ptr[i]? = t.ptr[j]? → i = j) ∧
      ∀ (p : Nat) (index : Option Nat) (realloc_ok : Bool), p ∈ entries t →
        ∃ idx : Option Nat, du_tracker_push t p index realloc_ok = .ok (t, idx) ∧
          (index = none → idx = none) ∧
          (t.status = .DU_STATUS_SUCCESS → ∀ v : Nat, index = some v →
            ∃ j : Nat, idx = some j ∧ j < t.n ∧ t.ptr[j]? = some p) := by
  obtain ⟨hwf, hle, hnd⟩ := tracker_reachable_inv t hr
  refine ⟨hnd, hle, hwf.1, ?_, ?_⟩
  · intro i j hi hj hij
    have hli : i < (entries t).length := by
      unfold entries
      rw [List.length_take]
      have := hwf.1
      omega
    have hlj : j < (entries t).length := by
      unfold entries
      rw [List.length_take]
      have := hwf.1
      omega
    have he : (entries t)[i]? = (entries t)[j]? := by
      unfold entries
      rw [List.getElem?_take, List.getElem?_take, if_pos hi, if_pos hj, hij]
    rw [List.getElem?_eq_getElem hli, List.getElem?_eq_getElem hlj] at he
    have he2 : (entries t)[i] = (entries t)[j] := Option.some.inj he
    exact (List.Nodup.getElem_inj_iff hnd).mp he2
  · intro p index realloc_ok hp
    unfold du_tracker_push
    by_cases hs : du_status_test t.status = true
    · rw [if_pos hs]
      refine ⟨index, rfl, fun h => h, fun hss => ?_⟩
      exact absurd hs (status_test_success t hss)
    · rw [if_neg hs]
      have hss : t.status = .DU_STATUS_SUCCESS := by
        cases hst : t.status
        · rfl
        · rw [hst] at hs
          exact absurd (by decide) hs
        · rw [hst] at hs
          exact absurd (by decide) hs
      obtain ⟨r, i2, k1, k2, k3, _⟩ := find_spec t hwf hss p index
      have hr1 : r = true := k2.mpr hp
      subst hr1
      rw [k1]
      exact ⟨i2, rfl, (k3 rfl).1, fun _ => (k3 rfl).2⟩

theorem C35_tracker_unique_witness :
    TrackerReachable tracker_3 ∧
      ((entries tracker_3).Nodup ∧ tracker_3.n ≤ tracker_3.n_alloc ∧
        tracker_3.n ≤ tracker_3.ptr.length ∧
        (∀ i j : Nat, i < tracker_3.n → j < tracker_3.n →
          tracker_3.ptr[i]? = tracker_3.ptr[j]? → i = j) ∧
        ∀ (p : Nat) (index : Option Nat) (realloc_ok : Bool), p ∈ entries tracker_3 →
          ∃ idx : Option Nat, du_tracker_push tracker_3 p index realloc_ok =
              .ok (tracker_3, idx) ∧
            (index = none → idx = none) ∧
            (tracker_3.status = .DU_STATUS_SUCCESS → ∀ v : Nat, index = some v →
              ∃ j : Nat, idx = some j ∧ j < tracker_3.n ∧ tracker_3.ptr[j]? = some p)) ∧
      200 ∈ entries tracker_3 ∧
      du_tracker_push tracker_3 200 (some 9) true = .ok (tracker_3, some 1) ∧
      du_tracker_push tracker_3 400 (some 9) true =
        .ok (⟨[100, 200, 300, 400], 4, 4, .DU_STATUS_SUCCESS⟩, some 3) :=
  ⟨reachable_tracker_3, C35_tracker_unique tracker_3 reachable_tracker_3, by decide, by decide,
    by decide⟩

/-! ## Hexadecimal colour strings -/

theorem hex_to_int_255 (c : Int) : _hex_to_int c = 255 ↔ ¬ hex_digit c := by
  by_cases hr : 48 ≤ c ∧ c ≤ 102
  · obtain ⟨h1, h2⟩ := hr
    interval_cases c <;> (unfold hex_digit; decide)
  · unfold _hex_to_int hex_digit
    repeat rw [if_neg (by omega)]
    constructor
    · intro _
      omega
    · intro _
      rfl

theorem char_at_cons_zero (c : Int) (cs : List Int) : char_at (c :: cs) 0 = c := rfl

theorem char_at_cons_succ (c : Int) (cs : List Int) (j : Nat) :
    char_at (c :: cs) (j + 1) = char_at cs j := rfl

theorem c_str_cons_ne (c : Int) (cs : List Int) (hc : c ≠ 0) :
    c_str (c :: cs) = c :: c_str cs := by
  unfold c_str
  rw [List.takeWhile_cons, if_pos (decide_eq_true hc)]

theorem c_str_cons_zero (cs : List Int) : c_str (0 :: cs) = [] := rfl

theorem char_at_c_str (str : List Int) :
    ∀ j : Nat, j < (c_str str).length →
      char_at str j ≠ 0 ∧ (c_str str)[j]? = some (char_at str j) := by
  induction str with
  | nil =>
    intro j hj
    exact absurd hj (Nat.not_lt_zero j)
  | cons c cs ih =>
    intro j hj
    by_cases hc : c ≠ 0
    · rw [c_str_cons_ne c cs hc] at hj ⊢
      cases j with
      | zero =>
        rw [char_at_cons_zero]
        exact ⟨hc, List.getElem?_cons_zero⟩
      | succ j =>
        rw [char_at_cons_succ]
        have hj2 : j < (c_str cs).length := by
          rw [List.length_cons] at hj
          omega
        rw [List.getElem?_cons_succ]
        exact ih j hj2
    · have h0 : c = 0 := by
        by_contra h
        exact hc h
      rw [h0, c_str_cons_zero] at hj
      exact absurd hj (Nat.not_lt_zero j)

theorem char_at_end (str : List Int) : char_at str (c_str str).length = 0 := by
  induction str with
  | nil => rfl
  | cons c cs ih =>
    by_cases hc : c ≠ 0
    · rw [c_str_cons_ne c cs hc, List.length_cons, char_at_cons_succ]
      exact ih
    · have h0 : c = 0 := by
        by_contra h
        exact hc h
      rw [h0, c_str_cons_zero]
      rfl

theorem convert_hex_loop_spec (str : List Int) :
    ∀ (rem i : Nat) (v : List Nat) (err : Bool), i + rem = 8 → i ≤ (c_str str).length →
      (_convert_hex_loop str rem i v err).1 = min 8 (c_str str).length ∧
        ((_convert_hex_loop str rem i v err).2.2 = true ↔
          (err = true ∨ ∃ j : Nat, i ≤ j ∧ j < min 8 (c_str str).length ∧
            ¬ hex_digit (char_at str j))) := by
  intro rem
  induction rem with
  | zero =>
    intro i v err hi hl
    unfold _convert_hex_loop
    refine ⟨by dsimp only; omega, ?_⟩
    dsimp only
    constructor
    · intro h
      exact Or.inl h
    · rintro (h | ⟨j, h1, h2, _⟩)
      · exact h
      · omega
  | succ rem ih =>
    intro i v err hi hl
    unfold _convert_hex_loop
    by_cases hc : char_at str i ≠ 0
    · rw [if_pos hc]
      have hne : i ≠ (c_str str).length := by
        intro h
        rw [h] at hc
        exact hc (char_at_end str)
      obtain ⟨k1, k2⟩ := ih (i + 1) (v.set i (_hex_to_int (char_at str i)))
        (if _hex_to_int (char_at str i) = 255 then true else err) (by omega) (by omega)
      refine ⟨k1, ?_⟩
      rw [k2]
      constructor
      · rintro (h | ⟨j, h1, h2, h3⟩)
        · by_cases hx : _hex_to_int (char_at str i) = 255
          · exact Or.inr ⟨i, le_refl _, by omega, (hex_to_int_255 _).mp hx⟩
          · rw [if_neg hx] at h
            exact Or.inl h
        · exact Or.inr ⟨j, by omega, h2, h3⟩
      · rintro (h | ⟨j, h1, h2, h3⟩)
        · left
          rw [h]
          simp
        · by_cases hji : j = i
          · left
            rw [hji] at h3
            rw [if_pos ((hex_to_int_255 _).mpr h3)]
          · exact Or.inr ⟨j, by omega, h2, h3⟩
    · rw [if_neg hc]
      have hge : (c_str str).length ≤ i := by
        by_contra hlt
        exact hc (char_at_c_str str i (by omega)).1
      refine ⟨by dsimp only; omega, ?_⟩
      dsimp only
      constructor
      · intro h
        exact Or.inl h
      · rintro (h | ⟨j, h1, h2, _⟩)
        · exact h
        · omega

theorem convert_hex_flag (str : List Int) :
    (_convert_hex str false).2 = true ↔
      ¬ (((c_str str).length = 6 ∨ (c_str str).length = 8) ∧ ∀ c ∈ c_str str, hex_digit c) := by
  obtain ⟨k1, k2⟩ := convert_hex_loop_spec str 8 0 [0x0, 0x0, 0x0, 0x0, 0x0, 0x0, 0xF, 0xF]
    false rfl (Nat.zero_le _)
  unfold _convert_hex
  generalize _convert_hex_loop str 8 0 [0x0, 0x0, 0x0, 0x0, 0x0, 0x0, 0xF, 0xF] false = res
    at k1 k2
  obtain ⟨i, v, e⟩ := res
  dsimp only at k1 k2 ⊢
  have hall : (∀ c ∈ c_str str, hex_digit c) ↔
      ∀ j : Nat, j < (c_str str).length → hex_digit (char_at str j) := by
    constructor
    · intro h j hj
      exact h _ (List.mem_iff_getElem?.mpr ⟨j, (char_at_c_str str j hj).2⟩)
    · intro h c hc
      obtain ⟨j, hj⟩ := List.mem_iff_getElem?.mp hc
      have hjl : j < (c_str str).length := (List.getElem?_eq_some_iff.mp hj).1
      have := (char_at_c_str str j hjl).2
      rw [hj] at this
      cases this
      exact h j hjl
  rw [hall]
  by_cases hL : (c_str str).length ≤ 8
  · have hi : i = (c_str str).length := by omega
    have hz : char_at str i = 0 := by
      rw [hi]
      exact char_at_end str
    constructor
    · intro h hgood
      obtain ⟨hlen, hhex⟩ := hgood
      by_cases hcond : (i ≠ 6 ∧ i ≠ 8) ∨ char_at str i ≠ 0
      · rcases hcond with hc | hc
        · omega
        · exact hc hz
      · rw [if_neg hcond] at h
        obtain hf | ⟨j, _, h2, h3⟩ := k2.mp h
        · cases hf
        · exact h3 (hhex j (by omega))
    · intro h
      by_cases hcond : (i ≠ 6 ∧ i ≠ 8) ∨ char_at str i ≠ 0
      · rw [if_pos hcond]
      · rw [if_neg hcond, k2]
        right
        have hlen : (c_str str).length = 6 ∨ (c_str str).length = 8 := by
          by_contra hne
          apply hcond
          left
          omega
        by_contra hno
        apply h
        refine ⟨hlen, fun j hj => ?_⟩
        by_contra hbad
        exact hno ⟨j, Nat.zero_le _, by omega, hbad⟩
  · have hi : i = 8 := by omega
    have hnz : char_at str i ≠ 0 := by
      rw [hi]
      exact (char_at_c_str str 8 (by omega)).1
    rw [if_pos (Or.inr hnz)]
    constructor
    · intro _ hgood
      omega
    · intro _
      rfl

/-- C38: for every string that starts with `#`, the flag that
`cobj_color_convert_str` stores into `*err` is true if and only if the rest of
the string, up to its terminator, is not 6 or 8 characters long or holds a
character that is not a hexadecimal digit; for an absent string the flag is
true; `"#ffffff"` is accepted, `"#aaa"` and `"#A0A0WA"` are rejected. -/
theorem C38_hex_validation :
    (∀ (strtoul : List Int → Nat × Nat) (rest : List Int),
        (cobj_color_convert_str strtoul (some (35 :: rest))).2 = true ↔
          ¬ (((c_str rest).length = 6 ∨ (c_str rest).length = 8) ∧
            ∀ c ∈ c_str rest, hex_digit c)) ∧
      (∀ strtoul : List Int → Nat × Nat, (cobj_color_convert_str strtoul none).2 = true) ∧
      (cobj_color_convert_str strtoul_none (some str_ffffff)).2 = false ∧
      (cobj_color_convert_str strtoul_none (some str_aaa)).2 = true ∧
      (cobj_color_convert_str strtoul_none (some str_A0A0WA)).2 = true ∧
      (cobj_color_convert_str strtoul_none (some str_ffffff)).1 =
        cobj_color_convert_rgba 255 255 255 255 := by
  refine ⟨fun strtoul rest => ?_, fun strtoul => rfl, by decide, by decide, by decide,
    by decide!⟩
  have h : cobj_color_convert_str strtoul (some (35 :: rest)) = _convert_hex rest false := by
    unfold cobj_color_convert_str
    have h35 : char_at (35 :: rest) 0 = 35 := rfl
    simp only [h35, if_true, List.drop_one, List.tail_cons]
  rw [h]
  exact convert_hex_flag rest

/-! ## The growth test and the initial sizing in double precision -/

theorem round_double_zero : round_double 0 = 0 := by
  unfold round_double
  rw [if_pos rfl]

theorem round_double_nonneg (q : ℚ) (h : 0 ≤ q) : 0 ≤ round_double q := by
  unfold round_double
  by_cases h0 : q = 0
  · rw [if_pos h0]
  · rw [if_neg h0]
    dsimp only
    rw [if_neg (not_lt.mpr h)]
    split_ifs
    · exact div_nonneg (Nat.cast_nonneg _) (Nat.cast_nonneg _)
    · exact mul_nonneg (Nat.cast_nonneg _) (Nat.cast_nonneg _)

theorem size_to_double_nonneg (n : Nat) : 0 ≤ size_to_double n :=
  round_double_nonneg _ (Nat.cast_nonneg n)

theorem growth_test_of_zero (d : _dictionary_t) (h : d.n_alloc = 0) : growth_test d := by
  unfold growth_test
  rw [h]
  have hz : size_to_double 0 = 0 := by
    unfold size_to_double
    rw [Nat.cast_zero]
    exact round_double_zero
  rw [hz, zero_mul, round_double_zero]
  exact size_to_double_nonneg d.n

/-- What `cobj_dictionary_write_double` does to the capacity of a well-formed
dictionary that has not failed: the three cases of the growth step. -/
theorem write_double_cap (d : _dictionary_t) (hlen : d.slots.length = d.n_alloc)
    (hcap : d.n_alloc ≤ SIZE_MAX) (hf : d.failed = false) (key : Option (List Int))
    (group value : Nat) (calloc_ok : Bool) :
    (¬ growth_test d →
        ∃ d2, cobj_dictionary_write_double d key group value calloc_ok = .ok d2 ∧
          _write_probe d (_hash key group) group value = .ok d2 ∧
          d2.n_alloc = d.n_alloc) ∧
      (growth_test d → (¬ resize_fits d.n_alloc 2 1 ∨ calloc_ok = false) →
        cobj_dictionary_write_double d key group value calloc_ok =
          .ok { d with failed := true }) ∧
      (growth_test d → resize_fits d.n_alloc 2 1 → calloc_ok = true →
        ∃ d1 d2, _resize d d.n_alloc 2 1 calloc_ok = .ok (true, d1) ∧
          _write_probe d1 (_hash key group) group value = .ok d2 ∧
          cobj_dictionary_write_double d key group value calloc_ok = .ok d2 ∧
          d2.n_alloc = 2 * d.n_alloc + 1) := by
  have hnf : ¬ (d.failed = true) := by simp [hf]
  have hpos_of : ∀ hg : growth_test d,
      size_to_double d.n ≥ round_double (size_to_double d.n_alloc * d.max_load) := fun hg => hg
  have hneg_of : ∀ hg : ¬ growth_test d,
      ¬ (size_to_double d.n ≥ round_double (size_to_double d.n_alloc * d.max_load)) :=
    fun hg => hg
  refine ⟨fun hg => ?_, fun hg hc => ?_, fun hg hfit hok => ?_⟩
  · have hpos : 0 < d.n_alloc := by
      by_contra h0
      exact hg (growth_test_of_zero d (by omega))
    obtain ⟨d2, h1, h2, _⟩ := write_probe_total d hlen hcap hpos (_hash key group) group value
    refine ⟨d2, ?_, h1, h2⟩
    unfold cobj_dictionary_write_double
    rw [if_neg hnf, if_neg (hneg_of hg), h1]
  · unfold cobj_dictionary_write_double
    rw [if_neg hnf, if_pos (hpos_of hg), resize_fail d d.n_alloc 2 1 calloc_ok
      (hc.imp id (fun h => ⟨by omega, h⟩))]
  · subst hok
    obtain ⟨d1, k1, k2, k3, _, _, _⟩ := resize_grow d hlen d.n_alloc 2 1 hfit (by omega)
    have hle := resize_fits_le d.n_alloc hfit
    obtain ⟨d2, h1, h2, _⟩ := write_probe_total d1 (by rw [k3, k2]) (by rw [k2]; omega)
      (by rw [k2]; omega) (_hash key group) group value
    refine ⟨d1, d2, k1, h1, ?_, by rw [h2, k2]; omega⟩
    unfold cobj_dictionary_write_double
    rw [if_neg hnf, if_pos (hpos_of hg), k1]
    exact h1

/-- C14 as stated fails, whichever way the product is read.  The dictionary
made by `create(6, 0.4)` and six writes has `n = 6`, `n_alloc = 15` and
`max_load` the `double` nearest to 0.4, which is above 2/5: `6 ≥ 15 ×
max_load` does not hold, yet the next write changes the capacity to 31, the
rounded product being 6.  The dictionary made by `create(7, 0.56)` and
fourteen writes has `n = 14`, `n_alloc = 25` and `max_load` the `double`
nearest to 0.56: `14 ≥ 25 × 0.56` holds, yet the next write leaves the
capacity at 25, the rounded product being above 14. -/
theorem C14_exact_test_fails :
    (cobj_dictionary_create_double 6 double_0_4 true true =
        .ok ⟨List.replicate 15 zero_slot, 0, 15, double_0_4, false⟩ ∧
      write_list_double ⟨List.replicate 15 zero_slot, 0, 15, double_0_4, false⟩
        (writes_k [0, 1, 2, 3, 4, 5]) = .ok dict_6_15 ∧
      round_double (2 / 5) = double_0_4 ∧
      dict_6_15.failed = false ∧ dict_6_15.n = 6 ∧ dict_6_15.n_alloc = 15 ∧
      ¬ ((dict_6_15.n : ℚ) ≥ (dict_6_15.n_alloc : ℚ) * dict_6_15.max_load) ∧
      round_double (size_to_double dict_6_15.n_alloc * dict_6_15.max_load) = 6 ∧
      returned_alloc (cobj_dictionary_write_double dict_6_15 key_k 6 1 true) = some 31) ∧
    (returned_alloc (cobj_dictionary_create_double 7 double_0_56 true true) = some 12 ∧
      (match cobj_dictionary_create_double 7 double_0_56 true true with
        | .ok d => write_list_double d (writes_k [0, 1, 2, 3, 4, 5, 6, 7, 8, 9, 10, 11, 12, 13])
        | .error e => .error e) = .ok dict_14_25 ∧
      round_double (14 / 25) = double_0_56 ∧
      dict_14_25.failed = false ∧ dict_14_25.n = 14 ∧ dict_14_25.n_alloc = 25 ∧
      ((dict_14_25.n : ℚ) ≥ (dict_14_25.n_alloc : ℚ) * (14 / 25)) ∧
      (14 : ℚ) < round_double (size_to_double dict_14_25.n_alloc * dict_14_25.max_load) ∧
      returned_alloc (cobj_dictionary_write_double dict_14_25 key_k 14 1 true) = some 25) := by
  refine ⟨⟨?_, ?_, ?_, rfl, rfl, rfl, ?_, ?_, ?_⟩, ?_, ?_, ?_, rfl, rfl, rfl, ?_, ?_, ?_⟩ <;>
    decide!

/-- C14, amended: on a well-formed dictionary that has not failed, `write`
returns.  When the growth does not overflow and the allocation succeeds, the
capacity changes exactly when the test `n ≥ n_alloc × max_load`, evaluated in
double precision as the code does (`n` and `n_alloc` converted to `double`,
the product rounded to nearest), holds on entry, and it becomes
`2 × n_alloc + 1`; in every other case (the test does not hold, or the growth
overflows, or the allocation fails) the capacity is unchanged. -/
theorem C14_growth_policy (d : _dictionary_t) (hlen : d.slots.length = d.n_alloc)
    (hcap : d.n_alloc ≤ SIZE_MAX) (hf : d.failed = false) (key : Option (List Int))
    (group value : Nat) (calloc_ok : Bool) :
    ∃ d2, cobj_dictionary_write_double d key group value calloc_ok = .ok d2 ∧
      (resize_fits d.n_alloc 2 1 → calloc_ok = true →
        (d2.n_alloc ≠ d.n_alloc ↔
          size_to_double d.n ≥ round_double (size_to_double d.n_alloc * d.max_load))) ∧
      (size_to_double d.n ≥ round_double (size_to_double d.n_alloc * d.max_load) →
        resize_fits d.n_alloc 2 1 → calloc_ok = true → d2.n_alloc = 2 * d.n_alloc + 1) ∧
      (¬ (size_to_double d.n ≥ round_double (size_to_double d.n_alloc * d.max_load) ∧
          resize_fits d.n_alloc 2 1 ∧ calloc_ok = true) → d2.n_alloc = d.n_alloc) := by
  obtain ⟨w1, w2, w3⟩ := write_double_cap d hlen hcap hf key group value calloc_ok
  by_cases hg : growth_test d
  · by_cases hc : resize_fits d.n_alloc 2 1 ∧ calloc_ok = true
    · obtain ⟨d1, d2, _, _, k3, k4⟩ := w3 hg hc.1 hc.2
      refine ⟨d2, k3, fun _ _ => ⟨fun _ => hg, fun _ => by rw [k4]; omega⟩, fun _ _ _ => k4,
        fun hn => absurd ⟨hg, hc.1, hc.2⟩ hn⟩
    · have hc2 : ¬ resize_fits d.n_alloc 2 1 ∨ calloc_ok = false := by
        by_cases hfit : resize_fits d.n_alloc 2 1
        · right
          cases calloc_ok
          · rfl
          · exact absurd ⟨hfit, rfl⟩ hc
        · exact Or.inl hfit
      refine ⟨_, w2 hg hc2, fun hfit hok => absurd ⟨hfit, hok⟩ hc,
        fun _ hfit hok => absurd ⟨hfit, hok⟩ hc, fun _ => rfl⟩
  · obtain ⟨d2, k1, _, k3⟩ := w1 hg
    refine ⟨d2, k1, fun _ _ => ⟨fun hne => absurd k3 hne, fun h => absurd h hg⟩,
      fun h => absurd h hg, fun _ => k3⟩

theorem C14_growth_policy_witness :
    dict_6_15.slots.length = dict_6_15.n_alloc ∧ dict_6_15.n_alloc ≤ SIZE_MAX ∧
      dict_6_15.failed = false ∧
      size_to_double dict_6_15.n ≥
        round_double (size_to_double dict_6_15.n_alloc * dict_6_15.max_load) ∧
      resize_fits dict_6_15.n_alloc 2 1 ∧
      (∃ d2, cobj_dictionary_write_double dict_6_15 key_k 6 1 true = .ok d2 ∧
        d2.n_alloc = 31 ∧
        (d2.n_alloc ≠ dict_6_15.n_alloc ↔
          size_to_double dict_6_15.n ≥
            round_double (size_to_double dict_6_15.n_alloc * dict_6_15.max_load))) ∧
      ¬ (size_to_double dict_14_25.n ≥
        round_double (size_to_double dict_14_25.n_alloc * dict_14_25.max_load)) ∧
      returned_alloc (cobj_dictionary_write_double dict_14_25 key_k 14 1 true) = some 25 := by
  have hg : size_to_double dict_6_15.n ≥
      round_double (size_to_double dict_6_15.n_alloc * dict_6_15.max_load) := by decide!
  have hfit : resize_fits dict_6_15.n_alloc 2 1 := by
    refine ⟨?_, ?_, ?_⟩ <;> decide
  obtain ⟨d2, h1, h2, h3, _⟩ :=
    C14_growth_policy dict_6_15 rfl (by decide) rfl key_k 6 1 true
  exact ⟨rfl, by decide, rfl, hg, hfit, ⟨d2, h1, h3 hg hfit rfl, h2 hfit rfl⟩, by decide!,
    by decide!⟩

theorem double_to_size_spec (x : ℚ) (hx : 0 ≤ x) (q : Nat) (h : double_to_size x = some q) :
    (q : ℚ) ≤ x ∧ x < (q : ℚ) + 1 ∧ q ≤ SIZE_MAX := by
  unfold double_to_size at h
  rw [if_pos hx] at h
  dsimp only at h
  have hfl : x.floor = ⌊x⌋ := rfl
  by_cases hr : 0 ≤ x.floor ∧ x.floor ≤ (SIZE_MAX : Int)
  · rw [if_pos hr] at h
    cases h
    have hcast : ((x.floor.toNat : Nat) : ℚ) = ((x.floor : ℤ) : ℚ) := by
      have := Int.toNat_of_nonneg hr.1
      exact_mod_cast congrArg (fun z : ℤ => (z : ℚ)) this
    refine ⟨?_, ?_, ?_⟩
    · rw [hcast, hfl]
      exact Int.floor_le x
    · rw [hcast, hfl]
      exact Int.lt_floor_add_one x
    · have := hr.2
      omega
  · rw [if_neg hr] at h
    cases h

/-- C18 as stated fails.  `create(1, 0.6)` with both allocations succeeding
returns a dictionary of capacity 1, the quotient truncated, while
⌈1 / 0.6⌉ = 2 (for 0.6 itself and for the `double` nearest to it);
`create(2^62, 1.0)`, whose capacity request passes the test against
`SIZE_MAX × max_load`, returns a failed dictionary, the byte size of the array
exceeding `SIZE_MAX`; and for `create(SIZE_MAX, 1.0)`, which passes the test
too, the quotient in double precision is 2^64, which the conversion to
`size_t` cannot represent. -/
theorem C18_initial_sizing_fails :
    (((0 : ℚ) < double_0_6 ∧ double_0_6 ≤ 1) ∧ round_double (3 / 5) = double_0_6 ∧
        ((1 : Nat) : ℚ) ≤ (SIZE_MAX : ℚ) * double_0_6 ∧
        ¬ (size_to_double 1 > round_double (size_to_double SIZE_MAX * double_0_6)) ∧
        cobj_dictionary_create_double 1 double_0_6 true true =
          .ok { slots := [zero_slot], n := 0, n_alloc := 1, max_load := double_0_6,
                failed := false } ∧
        rat_ceil (((1 : Nat) : ℚ) / double_0_6) = 2 ∧
        rat_ceil (((1 : Nat) : ℚ) / (3 / 5)) = 2) ∧
      (((0 : ℚ) < 1 ∧ (1 : ℚ) ≤ 1) ∧ round_double 1 = 1 ∧
        ((2 ^ 62 : Nat) : ℚ) ≤ (SIZE_MAX : ℚ) * 1 ∧
        ¬ (size_to_double (2 ^ 62) > round_double (size_to_double SIZE_MAX * 1)) ∧
        cobj_dictionary_create_double (2 ^ 62) 1 true true =
          .ok { slots := [], n := 0, n_alloc := 0, max_load := 1, failed := true }) ∧
      (((SIZE_MAX : Nat) : ℚ) ≤ (SIZE_MAX : ℚ) * 1 ∧
        ¬ (size_to_double SIZE_MAX > round_double (size_to_double SIZE_MAX * 1)) ∧
        round_double (size_to_double SIZE_MAX / 1) = 2 ^ 64 ∧
        double_to_size (round_double (size_to_double SIZE_MAX / 1)) = none ∧
        cobj_dictionary_create_double SIZE_MAX 1 true true = .error .out_of_range) := by
  refine ⟨⟨?_, ?_, ?_, ?_, ?_, ?_, ?_⟩, ⟨?_, ?_, ?_, ?_, ?_⟩, ?_, ?_, ?_, ?_, ?_⟩ <;> decide!

/-- C18, amended: for every `max_load` in (0, 1] and every initial capacity
`c`, the capacity test `c > SIZE_MAX × max_load` and the quotient
`c / max_load` being evaluated in double precision as the code does (`c` and
`SIZE_MAX` converted to `double`, product and quotient rounded to nearest):
when the test lets the request pass, the quotient with its fractional part
discarded is a `size_t` value `q`, and both allocations succeed,
`create(c, max_load)` returns a dictionary with live count 0; when the byte
size `q × sizeof(slot)` fits a `size_t` the dictionary has not failed, its
capacity is `q` and all its slots are unused; otherwise the dictionary has
failed. -/
theorem C18_initial_sizing (c : Nat) (max_load : ℚ) (h0 : 0 < max_load) (h1 : max_load ≤ 1)
    (hc : size_to_double c ≤ round_double (size_to_double SIZE_MAX * max_load)) (q : Nat)
    (hq : double_to_size (round_double (size_to_double c / max_load)) = some q) :
    ∃ d, cobj_dictionary_create_double c max_load true true = .ok d ∧
      cobj_dictionary_get_load d = 0 ∧ d.max_load = max_load ∧
      (q * sizeof_slot_t ≤ SIZE_MAX →
        d.failed = false ∧ d.n = 0 ∧ d.n_alloc = q ∧ cobj_dictionary_get_alloc_size d = q ∧
        d.slots = List.replicate q zero_slot) ∧
      (¬ q * sizeof_slot_t ≤ SIZE_MAX →
        d.failed = true ∧ cobj_dictionary_get_alloc_size d = 0) ∧
      ((q : ℚ) ≤ round_double (size_to_double c / max_load) ∧
        round_double (size_to_double c / max_load) < (q : ℚ) + 1) := by
  have hx : (0 : ℚ) ≤ round_double (size_to_double c / max_load) :=
    round_double_nonneg _ (div_nonneg (size_to_double_nonneg c) (le_of_lt h0))
  obtain ⟨t1, t2, _⟩ := double_to_size_spec _ hx q hq
  have htr : (q : ℚ) ≤ round_double (size_to_double c / max_load) ∧
      round_double (size_to_double c / max_load) < (q : ℚ) + 1 := ⟨t1, t2⟩
  unfold cobj_dictionary_create_double
  rw [if_neg (not_not.mpr ⟨h0, h1⟩), if_neg (not_lt.mpr hc), if_neg (by decide), hq]
  dsimp only
  by_cases hb : q * sizeof_slot_t ≤ SIZE_MAX
  · rcases Nat.eq_zero_or_pos q with hz | hp
    · subst hz
      rw [resize_noop _ 0 1 0 true ⟨by decide, by decide, by decide⟩ (Nat.le_refl 0)]
      exact ⟨_, rfl, rfl, rfl, fun _ => ⟨rfl, rfl, rfl, rfl, rfl⟩, fun h => absurd hb h, htr⟩
    · rw [resize_empty_grow max_load q hp hb]
      exact ⟨_, rfl, rfl, rfl, fun _ => ⟨rfl, rfl, rfl, rfl, rfl⟩, fun h => absurd hb h, htr⟩
  · have hcause : ¬ resize_fits q 1 0 := by
      intro hfit
      apply hb
      have := hfit.2.2
      simpa using this
    rw [resize_fail _ q 1 0 true (Or.inl hcause)]
    exact ⟨_, rfl, rfl, rfl, fun h => absurd h hb, fun _ => ⟨rfl, rfl⟩, htr⟩

theorem C18_initial_sizing_witness :
    (0 : ℚ) < double_0_1 ∧ double_0_1 ≤ 1 ∧ round_double (1 / 10) = double_0_1 ∧
      size_to_double 1 ≤ round_double (size_to_double SIZE_MAX * double_0_1) ∧
      double_to_size (round_double (size_to_double 1 / double_0_1)) = some 10 ∧
      (∃ d, cobj_dictionary_create_double 1 double_0_1 true true = .ok d ∧
        cobj_dictionary_get_load d = 0 ∧ d.max_load = double_0_1 ∧
        (10 * sizeof_slot_t ≤ SIZE_MAX →
          d.failed = false ∧ d.n = 0 ∧ d.n_alloc = 10 ∧
          cobj_dictionary_get_alloc_size d = 10 ∧ d.slots = List.replicate 10 zero_slot) ∧
        (¬ 10 * sizeof_slot_t ≤ SIZE_MAX →
          d.failed = true ∧ cobj_dictionary_get_alloc_size d = 0) ∧
        (((10 : Nat) : ℚ) ≤ round_double (size_to_double 1 / double_0_1) ∧
          round_double (size_to_double 1 / double_0_1) < ((10 : Nat) : ℚ) + 1)) ∧
      10 * sizeof_slot_t ≤ SIZE_MAX ∧
      returned_alloc (cobj_dictionary_create_double 1 double_0_1 true true) = some 10 ∧
      (((1 : Nat) : ℚ) / double_0_1).floor = 9 ∧
      round_double (7 / 100) = double_0_07 ∧
      returned_alloc (cobj_dictionary_create_double 7 double_0_07 true true) = some 99 ∧
      (((7 : Nat) : ℚ) / (7 / 100)).floor = 100 :=
  ⟨by decide!, by decide!, by decide!, by decide!, by decide!,
    C18_initial_sizing 1 double_0_1 (by decide!) (by decide!) (by decide!) 10 (by decide!),
    by decide, by decide!, by decide!, by decide!, by decide!, by decide!⟩
